import Mathlib

/-!
Verification development for the browser client of the receipt-management
product (upload/parse orchestration, response normalization, the
transactions page and the serverless upload-URL broker).

The TypeScript sources are shallowly embedded:
* JavaScript values coming out of JSON parsing are modelled by the
  inductive type Json; JavaScript numbers are JsNum (NaN, the two
  infinities, or a finite value represented as an exact rational JsRat in
  lowest terms, the unique-representation counterpart of an IEEE double).
* Objects are association lists of string keys (first match wins; the
  keys of one object are distinct as produced by JSON parsing).
* Number-string conversions implement the observable fragment of the
  ECMAScript ToNumber / ToString algorithms on decimal, hexadecimal,
  octal and binary literals; gigantic literals overflow to Infinity at
  the IEEE double overflow threshold 2^1024.
* Dates are epoch milliseconds (integers); the evaluating timezone is a
  parameter tz giving the constant local offset from UTC in minutes.
* Stateful React handlers become pure step functions from a state
  structure to an updated state plus the list of network requests they
  issue.
-/

/-- Exact rational kept in lowest terms with positive denominator: the
value of a finite JavaScript number (every IEEE double is such a
rational, with a unique representation). -/
structure JsRat where
  num : ℤ
  den : ℕ
deriving DecidableEq

/-- Builds a JsRat in lowest terms from a fraction. -/
def mkJsRat (n d : ℤ) : JsRat :=
  if d = 0 then ⟨0, 1⟩
  else
    let n' := if d < 0 then -n else n
    let dAbs := d.natAbs
    let g := Nat.gcd n'.natAbs dAbs
    ⟨n' / (g : ℤ), dAbs / g⟩

/-- JsRat from an integer. -/
def JsRat.ofInt (n : ℤ) : JsRat := ⟨n, 1⟩

/-- Addition of JavaScript number values. -/
def JsRat.add (a b : JsRat) : JsRat :=
  mkJsRat (a.num * (b.den : ℤ) + b.num * (a.den : ℤ)) ((a.den : ℤ) * (b.den : ℤ))

/-- Multiplication of JavaScript number values. -/
def JsRat.mul (a b : JsRat) : JsRat :=
  mkJsRat (a.num * b.num) ((a.den : ℤ) * (b.den : ℤ))

/-- Negation (keeps lowest terms). -/
def JsRat.neg (a : JsRat) : JsRat := ⟨-a.num, a.den⟩

/-- Multiplication by a power of ten (decimal exponents). -/
def JsRat.mulPow10 (a : JsRat) (e : ℤ) : JsRat :=
  if 0 ≤ e then mkJsRat (a.num * (10 : ℤ) ^ e.toNat) (a.den : ℤ)
  else mkJsRat a.num ((a.den : ℤ) * (10 : ℤ) ^ (-e).toNat)

/-- Comparison a <= b on values, by cross multiplication. -/
def JsRat.leB (a b : JsRat) : Bool := a.num * (b.den : ℤ) ≤ b.num * (a.den : ℤ)

/-- Comparison a < b on values. -/
def JsRat.ltB (a b : JsRat) : Bool := a.num * (b.den : ℤ) < b.num * (a.den : ℤ)

/-- Number.isInteger on a finite value in lowest terms. -/
def JsRat.isInt (a : JsRat) : Bool := a.den = 1

/-- Value of a JavaScript number: NaN, an infinity, or a finite value. -/
inductive JsNum where
  | nan : JsNum
  | posInf : JsNum
  | negInf : JsNum
  | finite : JsRat → JsNum
deriving DecidableEq

/-- JavaScript values produced by JSON parsing (plus anything a response
body may hold): null, booleans, numbers, strings, arrays and objects.
Objects are association lists with distinct keys. -/
inductive Json where
  | null : Json
  | bool : Bool → Json
  | num : JsNum → Json
  | str : String → Json
  | arr : List Json → Json
  | obj : List (String × Json) → Json

/-- Reading a key of an object: first matching key, none when absent
(JavaScript undefined). -/
def jsonLookup (fields : List (String × Json)) (key : String) : Option Json :=
  match fields with
  | [] => none
  | (k, v) :: rest => if k = key then some v else jsonLookup rest key

/-- The nullish-coalescing chain o.k1 ?? o.k2 ?? ... : the first key whose
value is present and not null. -/
def jsCoalesce (fields : List (String × Json)) (keys : List String) : Option Json :=
  match keys with
  | [] => none
  | k :: ks =>
    match jsonLookup fields k with
    | some Json.null => jsCoalesce fields ks
    | some v => some v
    | none => jsCoalesce fields ks

/-- The String.prototype.trim of JavaScript, over the ASCII whitespace
fragment (space, tab, carriage return, newline). Defined on the character
list so that it evaluates inside the kernel. -/
def jsTrim (s : String) : String :=
  String.mk (((s.data.dropWhile Char.isWhitespace).reverse.dropWhile Char.isWhitespace).reverse)

/-- Does the string contain the character (String.prototype.includes on a
single character)? -/
def jsIncludes (s : String) (c : Char) : Bool := s.data.contains c

/-- String.prototype.startsWith. -/
def jsStartsWith (s p : String) : Bool := p.data.isPrefixOf s.data

/-- Digit character for a value below ten. -/
def decDigitChar (d : ℕ) : Char :=
  (List.getD ("0123456789".data) d '0')

/-- Decimal digits of a natural number, least significant first, via an
explicit fuel argument so the definition is structural (and therefore
evaluates inside the kernel). The fuel natDigitsRev passes is always
sufficient. -/
def natDigitsRevAux : ℕ → ℕ → List ℕ
  | _, 0 => []
  | 0, _ + 1 => []
  | fuel + 1, n + 1 => ((n + 1) % 10) :: natDigitsRevAux fuel ((n + 1) / 10)

/-- Decimal digits of a natural number, least significant first. -/
def natDigitsRev (n : ℕ) : List ℕ :=
  natDigitsRevAux n n

/-- Decimal string of a natural number (the JavaScript String() result on
a non-negative safe integer). -/
def natToString (n : ℕ) : String :=
  if n = 0 then "0" else String.mk (((natDigitsRev n).reverse).map decDigitChar)

/-- Decimal string of an integer. -/
def intToString (i : ℤ) : String :=
  if 0 ≤ i then natToString i.toNat else "-" ++ natToString (-i).toNat

/-- Multiplicity of a factor p in n, computed with fuel (used to detect
denominators of the form 2^a * 5^b). -/
def factorMultAux (p : ℕ) : ℕ → ℕ → ℕ
  | 0, _ => 0
  | fuel + 1, n => if 2 ≤ p ∧ n ≠ 0 ∧ n % p = 0 then factorMultAux p fuel (n / p) + 1 else 0

/-- Multiplicity of p in n. -/
def factorMult (p n : ℕ) : ℕ :=
  factorMultAux p n n

/-- Left-pads a digit string with zeros up to the given length. -/
def padZeros (len : ℕ) (s : String) : String :=
  String.mk (List.replicate (len - s.length) '0') ++ s

/-- String form of a finite JavaScript number. Integers print as decimal
integers; fractions whose denominator divides a power of ten print with a
decimal point, matching the JavaScript ToString result on the doubles the
client actually produces (every double has such a denominator). Other
rationals cannot arise from a double; they get an inert num/den stand-in.
Exponential notation for extreme magnitudes is not modelled. -/
def ratToString (q : JsRat) : String :=
  if q.den = 1 then intToString q.num
  else
    let k := max (factorMult 2 q.den) (factorMult 5 q.den)
    if q.den ∣ 10 ^ k then
      let scaled : ℕ := q.num.natAbs * 10 ^ k / q.den
      let digits := padZeros (k + 1) (natToString scaled)
      let intLen := digits.length - k
      (if q.num < 0 then "-" else "") ++
        String.mk (digits.data.take intLen) ++ "." ++ String.mk (digits.data.drop intLen)
    else intToString q.num ++ "/" ++ natToString q.den

/-- String() conversion of a JavaScript number. -/
def jsNumToString : JsNum → String
  | JsNum.nan => "NaN"
  | JsNum.posInf => "Infinity"
  | JsNum.negInf => "-Infinity"
  | JsNum.finite q => ratToString q

/-- Numeric value of a decimal digit list (most significant first). -/
def digitsToNat (ds : List Char) : ℕ :=
  ds.foldl (fun acc c => acc * 10 + (c.toNat - 48)) 0

/-- Numeric value of a base-b digit list (most significant first), for the
hexadecimal, octal and binary literal forms. -/
def digitsToNatBase (b : ℕ) (ds : List Char) : ℕ :=
  ds.foldl (fun acc c =>
    acc * b +
      (if '0' ≤ c ∧ c ≤ '9' then c.toNat - 48
       else if 'a' ≤ c ∧ c ≤ 'f' then c.toNat - 87
       else c.toNat - 55)) 0

/-- Is this a valid digit in base b (b being 2, 8 or 16)? -/
def isBaseDigit (b : ℕ) (c : Char) : Bool :=
  if b = 16 then c.isDigit || ('a' ≤ c && c ≤ 'f') || ('A' ≤ c && c ≤ 'F')
  else if b = 8 then '0' ≤ c && c ≤ '7'
  else c = '0' || c = '1'

/-- Splits a character list at the first occurrence of the exponent marker
e or E. -/
def splitExpMarker : List Char → List Char × Option (List Char)
  | [] => ([], none)
  | c :: rest =>
    if c = 'e' ∨ c = 'E' then ([], some rest)
    else
      let (m, e) := splitExpMarker rest
      (c :: m, e)

/-- Splits a character list at the first decimal point. -/
def splitDot : List Char → List Char × Option (List Char)
  | [] => ([], none)
  | c :: rest =>
    if c = '.' then ([], some rest)
    else
      let (m, e) := splitDot rest
      (c :: m, e)

/-- Parses the mantissa part digits [. digits] of a decimal literal as an
exact rational; none when malformed. -/
def parseMantissa (cs : List Char) : Option JsRat :=
  let (intPart, fracOpt) := splitDot cs
  let fracPart := fracOpt.getD []
  if intPart.all Char.isDigit ∧ fracPart.all Char.isDigit ∧
      (intPart ≠ [] ∨ fracPart ≠ []) ∧ (fracOpt.isSome ∨ intPart ≠ []) then
    some (mkJsRat (digitsToNat (intPart ++ fracPart)) ((10 : ℤ) ^ fracPart.length))
  else none

/-- Parses a signed decimal exponent. -/
def parseExponentPart (cs : List Char) : Option ℤ :=
  match cs with
  | '+' :: ds => if ds ≠ [] ∧ ds.all Char.isDigit then some (digitsToNat ds) else none
  | '-' :: ds => if ds ≠ [] ∧ ds.all Char.isDigit then some (-(digitsToNat ds : ℤ)) else none
  | ds => if ds ≠ [] ∧ ds.all Char.isDigit then some (digitsToNat ds) else none

/-- Parses an unsigned decimal literal (with optional fraction and
exponent) as an exact rational. -/
def parseUnsignedDecimal (cs : List Char) : Option JsRat :=
  let (mant, expOpt) := splitExpMarker cs
  match parseMantissa mant with
  | none => none
  | some m =>
    match expOpt with
    | none => some m
    | some e =>
      match parseExponentPart e with
      | none => none
      | some k => some (m.mulPow10 k)

/-- Parses the body of a numeric string after an optional sign: Infinity
or an unsigned decimal literal. -/
def parseUnsignedNumeric (cs : List Char) : Option JsNum :=
  if cs = "Infinity".data then some JsNum.posInf
  else (parseUnsignedDecimal cs).map JsNum.finite

/-- Negation on JavaScript numbers. -/
def jsNumNeg : JsNum → JsNum
  | JsNum.nan => JsNum.nan
  | JsNum.posInf => JsNum.negInf
  | JsNum.negInf => JsNum.posInf
  | JsNum.finite q => JsNum.finite q.neg

/-- The IEEE double overflow threshold 2^1024, written out as a literal
so that reduction never unfolds a 1024-deep power. -/
def doubleOverflowThreshold : ℤ := 179769313486231590772930519078902473361797697894230657273430081157732675805500963132708477322407536021120113879871393357658789768814416622492847430639474124377767893424865485276302219601246094119453082952085005768838150682342462881473913110540827237163350510684586298239947245938479716304835356329624224137216

/-- Clamps a finite parsed value to the IEEE double overflow threshold:
magnitudes of at least 2^1024 become the corresponding infinity. -/
def overflowClamp : JsNum → JsNum
  | JsNum.finite q =>
    if JsRat.leB (JsRat.ofInt doubleOverflowThreshold) q then JsNum.posInf
    else if JsRat.leB q (JsRat.ofInt (-doubleOverflowThreshold)) then JsNum.negInf
    else JsNum.finite q
  | v => v

/-- The ECMAScript ToNumber conversion on strings, Number(s): whitespace
trimming, the empty string is zero, hexadecimal/octal/binary integer
literals, otherwise an optionally signed decimal literal or Infinity;
anything else is NaN. -/
def jsStringToNumber (s : String) : JsNum :=
  let cs := (jsTrim s).data
  match cs with
  | [] => JsNum.finite (JsRat.ofInt 0)
  | '0' :: 'x' :: ds => if ds ≠ [] ∧ ds.all (isBaseDigit 16) then overflowClamp (JsNum.finite (JsRat.ofInt (digitsToNatBase 16 ds))) else JsNum.nan
  | '0' :: 'X' :: ds => if ds ≠ [] ∧ ds.all (isBaseDigit 16) then overflowClamp (JsNum.finite (JsRat.ofInt (digitsToNatBase 16 ds))) else JsNum.nan
  | '0' :: 'o' :: ds => if ds ≠ [] ∧ ds.all (isBaseDigit 8) then overflowClamp (JsNum.finite (JsRat.ofInt (digitsToNatBase 8 ds))) else JsNum.nan
  | '0' :: 'O' :: ds => if ds ≠ [] ∧ ds.all (isBaseDigit 8) then overflowClamp (JsNum.finite (JsRat.ofInt (digitsToNatBase 8 ds))) else JsNum.nan
  | '0' :: 'b' :: ds => if ds ≠ [] ∧ ds.all (isBaseDigit 2) then overflowClamp (JsNum.finite (JsRat.ofInt (digitsToNatBase 2 ds))) else JsNum.nan
  | '0' :: 'B' :: ds => if ds ≠ [] ∧ ds.all (isBaseDigit 2) then overflowClamp (JsNum.finite (JsRat.ofInt (digitsToNatBase 2 ds))) else JsNum.nan
  | '+' :: rest => overflowClamp ((parseUnsignedNumeric rest).getD JsNum.nan)
  | '-' :: rest => overflowClamp (jsNumNeg ((parseUnsignedNumeric rest).getD JsNum.nan))
  | rest => overflowClamp ((parseUnsignedNumeric rest).getD JsNum.nan)

set_option maxRecDepth 100000

/-- Epoch-day number of a civil date (year, month 1..12, day). Linear in
the day argument, so day values outside the month roll over exactly as
the ECMAScript MakeDay operation does. Uses the standard era-based
civil-calendar algorithm with floor divisions. -/
def daysFromCivil (y m d : ℤ) : ℤ :=
  let yAdj := if m ≤ 2 then y - 1 else y
  let era := Int.ediv yAdj 400
  let yoe := yAdj - era * 400
  let mp := Int.emod (m + 9) 12
  let doy := Int.ediv (153 * mp + 2) 5 + d - 1
  let doe := yoe * 365 + Int.ediv yoe 4 - Int.ediv yoe 100 + doy
  era * 146097 + doe - 719468

/-- Civil date (year, month 1..12, day) of an epoch-day number. -/
def civilFromDays (z : ℤ) : ℤ × ℤ × ℤ :=
  let z' := z + 719468
  let era := Int.ediv z' 146097
  let doe := z' - era * 146097
  let yoe := Int.ediv (doe - Int.ediv doe 1461 + Int.ediv doe 36524 - Int.ediv doe 146097) 365
  let y := yoe + era * 400
  let doy := doe - (365 * yoe + Int.ediv yoe 4 - Int.ediv yoe 100)
  let mp := Int.ediv (5 * doy + 2) 153
  let d := doy - Int.ediv (153 * mp + 2) 5 + 1
  let m := mp + (if mp < 10 then 3 else -9)
  (if m ≤ 2 then y + 1 else y, m, d)

/-- The ECMAScript MakeDay of the multi-argument Date constructor: years
0..99 are shifted to 1900..1999, the month index rolls over into the
year, day values roll over linearly. -/
def jsMakeDay (y mIdx d : ℤ) : ℤ :=
  let yr := if 0 ≤ y ∧ y ≤ 99 then y + 1900 else y
  let ym := yr + Int.ediv mIdx 12
  let mn := Int.emod mIdx 12
  daysFromCivil ym (mn + 1) d

/-- Epoch milliseconds of new Date(year, monthIndex, day) evaluated in a
timezone at offset tz minutes east of UTC (local wall-clock construction,
the load-bearing special case of the date parsing in this client). -/
def mkDateLocal (tz y mIdx d : ℤ) : ℤ :=
  jsMakeDay y mIdx d * 86400000 - tz * 60000

/-- Epoch-day number of the local calendar day containing an instant. -/
def localDays (tz ms : ℤ) : ℤ :=
  Int.ediv (ms + tz * 60000) 86400000

/-- Local civil date (year, month 1..12, day) of an instant. -/
def localCivil (tz ms : ℤ) : ℤ × ℤ × ℤ :=
  civilFromDays (localDays tz ms)

/-- Date.prototype.getFullYear in the evaluating timezone. -/
def jsGetFullYear (tz ms : ℤ) : ℤ :=
  (localCivil tz ms).1

/-- Date.prototype.getMonth (zero-based month index) in the evaluating
timezone. -/
def jsGetMonth (tz ms : ℤ) : ℤ :=
  (localCivil tz ms).2.1 - 1

/-- Gregorian leap-year test. -/
def isLeapYear (y : ℤ) : Bool :=
  (Int.emod y 4 = 0 ∧ Int.emod y 100 ≠ 0) ∨ Int.emod y 400 = 0

/-- Number of days of a month (month 1..12). -/
def daysInMonth (y m : ℤ) : ℤ :=
  if m = 2 then (if isLeapYear y then 29 else 28)
  else if m = 4 ∨ m = 6 ∨ m = 9 ∨ m = 11 then 30
  else 31

/-- Integer value of a decimal digit character. -/
def digitVal (c : Char) : ℤ :=
  (c.toNat : ℤ) - 48

/-- Parses the time-of-day tail of an ISO date-time string, HH:MM with
optional :SS and optional .mmm, optionally terminated by Z. Returns the
milliseconds within the day and whether the Z (UTC) designator was
present. -/
def parseIsoTime (cs : List Char) : Option (ℤ × Bool) :=
  match cs with
  | h1 :: h2 :: ':' :: m1 :: m2 :: rest =>
    if h1.isDigit ∧ h2.isDigit ∧ m1.isDigit ∧ m2.isDigit then
      let hh := digitVal h1 * 10 + digitVal h2
      let mm := digitVal m1 * 10 + digitVal m2
      if hh ≤ 23 ∧ mm ≤ 59 then
        let base := hh * 3600000 + mm * 60000
        match rest with
        | [] => some (base, false)
        | ['Z'] => some (base, true)
        | ':' :: s1 :: s2 :: rest' =>
          if s1.isDigit ∧ s2.isDigit then
            let ss := digitVal s1 * 10 + digitVal s2
            if ss ≤ 59 then
              let base' := base + ss * 1000
              match rest' with
              | [] => some (base', false)
              | ['Z'] => some (base', true)
              | '.' :: f1 :: f2 :: f3 :: rest'' =>
                if f1.isDigit ∧ f2.isDigit ∧ f3.isDigit then
                  let fff := digitVal f1 * 100 + digitVal f2 * 10 + digitVal f3
                  match rest'' with
                  | [] => some (base' + fff, false)
                  | ['Z'] => some (base' + fff, true)
                  | _ => none
                else none
              | _ => none
            else none
          else none
        | _ => none
      else none
    else none
  | _ => none

/-- The ECMAScript Date.parse on the ISO 8601 fragment the client's data
uses: a date YYYY-MM-DD, optionally followed by T and a time. A date-only
string is interpreted as UTC midnight; a date-time without the Z
designator is interpreted as local time in the evaluating timezone; with
Z it is UTC. Everything else (including engine-specific lenient formats)
is a parse failure, NaN. -/
def jsDateParse (tz : ℤ) (s : String) : Option ℤ :=
  match s.data with
  | y1 :: y2 :: y3 :: y4 :: '-' :: m1 :: m2 :: '-' :: d1 :: d2 :: rest =>
    if y1.isDigit ∧ y2.isDigit ∧ y3.isDigit ∧ y4.isDigit ∧
        m1.isDigit ∧ m2.isDigit ∧ d1.isDigit ∧ d2.isDigit then
      let y := digitVal y1 * 1000 + digitVal y2 * 100 + digitVal y3 * 10 + digitVal y4
      let mo := digitVal m1 * 10 + digitVal m2
      let dy := digitVal d1 * 10 + digitVal d2
      if 1 ≤ mo ∧ mo ≤ 12 ∧ 1 ≤ dy ∧ dy ≤ daysInMonth y mo then
        let dayMs := daysFromCivil y mo dy * 86400000
        match rest with
        | [] => some dayMs
        | 'T' :: timePart =>
          match parseIsoTime timePart with
          | some (t, isUtc) => some (dayMs + t - (if isUtc then 0 else tz * 60000))
          | none => none
        | _ => none
      else none
    else none
  | _ => none

/-- Date.prototype.getDate (day of month) in the evaluating timezone. -/
def jsGetDate (tz ms : ℤ) : ℤ :=
  (localCivil tz ms).2.2

/-- The toObject helper of the client: an object that is neither null nor
an array yields its fields, anything else yields none. -/
def toObjectFields : Json → Option (List (String × Json))
  | Json.obj fields => some fields
  | _ => none

/-- The toNumber helper: a finite number is itself, a string is converted
with Number() and kept when finite, anything else is null. -/
def toNumber : Json → Option JsRat
  | Json.num (JsNum.finite q) => some q
  | Json.num _ => none
  | Json.str s =>
    match jsStringToNumber s with
    | JsNum.finite q => some q
    | _ => none
  | _ => none

/-- The readFirstString helper: first key whose value is a string with
non-blank trim; the trimmed value is returned. -/
def readFirstString (fields : List (String × Json)) : List String → Option String
  | [] => none
  | k :: ks =>
    match jsonLookup fields k with
    | some (Json.str s) => if jsTrim s = "" then readFirstString fields ks else some (jsTrim s)
    | _ => readFirstString fields ks

/-- The readFirstNumber helper: first key whose value coerces to a finite
number. -/
def readFirstNumber (fields : List (String × Json)) : List String → Option JsRat
  | [] => none
  | k :: ks =>
    match (jsonLookup fields k).bind toNumber with
    | some q => some q
    | none => readFirstNumber fields ks

/-- The toDateString helper: a string value with non-blank trim yields
the trimmed string, anything else yields null. -/
def toDateString : Option Json → Option String
  | some (Json.str s) => if jsTrim s = "" then none else some (jsTrim s)
  | _ => none

/-- Receipt list record of the dashboard. -/
structure Receipt where
  id : String
  merchant : String
  amount : Option JsRat
  status : String
  date : Option String
deriving DecidableEq

/-- Id resolution of one raw entry: the first non-nullish of receiptId,
id, _id converted with String() when it is a string or a number, else the
synthesized placeholder receipt-(index). -/
def receiptIdOf (index : ℕ) (fields : List (String × Json)) : String :=
  match jsCoalesce fields ["receiptId", "id", "_id"] with
  | some (Json.str s) => s
  | some (Json.num n) => jsNumToString n
  | _ => "receipt-" ++ natToString index

/-- Merchant resolution of one raw entry. -/
def receiptMerchantOf (fields : List (String × Json)) : String :=
  (readFirstString fields ["merchant", "merchantName", "store", "vendor", "name", "title"]).getD
    "Unknown Merchant"

/-- Amount resolution of one raw entry. -/
def receiptAmountOf (fields : List (String × Json)) : Option JsRat :=
  readFirstNumber fields ["amount", "total", "totalAmount", "price", "sum"]

/-- Status resolution of one raw entry: a boolean reviewed field wins and
maps to the literals Reviewed / Unreview; otherwise the first non-blank
string status field; otherwise Unknown. -/
def receiptStatusOf (fields : List (String × Json)) : String :=
  match jsonLookup fields "reviewed" with
  | some (Json.bool true) => "Reviewed"
  | some (Json.bool false) => "Unreview"
  | _ => (readFirstString fields ["status", "processingStatus", "state"]).getD "Unknown"

/-- Date resolution of one raw entry. -/
def receiptDateOf (fields : List (String × Json)) : Option String :=
  toDateString (jsCoalesce fields ["createdAt", "date", "receiptDate", "transactionDate"])

/-- Coercion of one raw entry of the receipts payload (null for non-object
entries, which are dropped). -/
def coerceReceipt (index : ℕ) (item : Json) : Option Receipt :=
  match toObjectFields item with
  | none => none
  | some fields =>
    some
      { id := receiptIdOf index fields
        merchant := receiptMerchantOf fields
        amount := receiptAmountOf fields
        status := receiptStatusOf fields
        date := receiptDateOf fields }

/-- Collection extraction: the payload itself when it is an array, else
the first array among its data, items and receipts fields, else empty. -/
def extractReceiptsRaw (payload : Json) : List Json :=
  match payload with
  | Json.arr xs => xs
  | Json.obj fields =>
    match jsonLookup fields "data" with
    | some (Json.arr xs) => xs
    | _ =>
      match jsonLookup fields "items" with
      | some (Json.arr xs) => xs
      | _ =>
        match jsonLookup fields "receipts" with
        | some (Json.arr xs) => xs
        | _ => []
  | _ => []

/-- SortCompare wrapper of Array.prototype.sort: a NaN comparator result
(none) is treated as +0, every other result is ordered by its sign. The
boolean says the pair needs no swap. -/
def jsSortLeB : Option JsRat → Bool
  | none => true
  | some q => q.num ≤ 0

/-- Array.prototype.sort with a comparator, modelled as the stable
insertion sort over the SortCompare relation: the behavior the ECMAScript
specification requires for consistent comparators, with one concrete
choice of stable algorithm for inconsistent ones. -/
def jsArraySort (cmp : α → α → Option JsRat) (l : List α) : List α :=
  List.insertionSort (fun a b => jsSortLeB (cmp a b) = true) l

/-- Sort key of the dashboard receipt sort: 0 for an absent date, the
Date.parse value otherwise (none, NaN, when unparsable). -/
def receiptSortTime (tz : ℤ) (r : Receipt) : Option ℤ :=
  match r.date with
  | none => some 0
  | some s => if s = "" then some 0 else jsDateParse tz s

/-- Comparator of the dashboard receipt sort, rightTime minus leftTime
(descending); NaN when either side is unparsable. -/
def receiptCompare (tz : ℤ) (l r : Receipt) : Option JsRat :=
  match receiptSortTime tz l, receiptSortTime tz r with
  | some a, some b => some (JsRat.ofInt (b - a))
  | _, _ => none

/-- The normalizeReceipts function of the dashboard: extract the
collection, coerce each entry (dropping non-objects), sort by parsed date
descending. -/
def normalizeReceipts (tz : ℤ) (payload : Json) : List Receipt :=
  jsArraySort (receiptCompare tz)
    (((extractReceiptsRaw payload).enum).filterMap (fun p => coerceReceipt p.1 p.2))

/-- Transaction record of the transactions page. -/
structure Transaction where
  id : String
  merchant : String
  amount : Option JsRat
  date : Option String
deriving DecidableEq

/-- Exact match of the pure date regex (four digits, dash, two digits,
dash, two digits) used by parseReceiptDate, with the Number() values of
the three groups. -/
def matchDateOnly (s : String) : Option (ℤ × ℤ × ℤ) :=
  match s.data with
  | [a, b, c, d, '-', e, f, '-', g, h] =>
    if a.isDigit ∧ b.isDigit ∧ c.isDigit ∧ d.isDigit ∧ e.isDigit ∧ f.isDigit ∧
        g.isDigit ∧ h.isDigit then
      some
        (digitVal a * 1000 + digitVal b * 100 + digitVal c * 10 + digitVal d,
          digitVal e * 10 + digitVal f, digitVal g * 10 + digitVal h)
    else none
  | _ => none

/-- The parseReceiptDate function of the transactions page: a pure
YYYY-MM-DD string is special-cased into a local-time construction
new Date(year, monthIndex, day); any other string goes through the
generic Date.parse; unparsable input is null. The result is the
getTime() value of the produced Date. -/
def parseReceiptDate (tz : ℤ) : Option String → Option ℤ
  | none => none
  | some raw =>
    if raw = "" then none
    else
      let trimmed := jsTrim raw
      if trimmed = "" then none
      else
        match matchDateOnly trimmed with
        | some (y, mo, dy) => some (mkDateLocal tz y (mo - 1) dy)
        | none => jsDateParse tz trimmed

/-- Coercion of one raw entry of the transactions payload. -/
def coerceTransaction (index : ℕ) (item : Json) : Option Transaction :=
  match toObjectFields item with
  | none => none
  | some fields =>
    some
      { id := receiptIdOf index fields
        merchant := receiptMerchantOf fields
        amount := receiptAmountOf fields
        date := receiptDateOf fields }

/-- Sort key of the transactions sort: parseReceiptDate with 0 for null. -/
def txSortTime (tz : ℤ) (t : Transaction) : ℤ :=
  (parseReceiptDate tz t.date).getD 0

/-- Comparator of the transactions sort (descending by time, never NaN). -/
def txCompare (tz : ℤ) (l r : Transaction) : Option JsRat :=
  some (JsRat.ofInt (txSortTime tz r - txSortTime tz l))

/-- The normalizeTransactions function of the transactions page. -/
def normalizeTransactions (tz : ℤ) (payload : Json) : List Transaction :=
  jsArraySort (txCompare tz)
    (((extractReceiptsRaw payload).enum).filterMap (fun p => coerceTransaction p.1 p.2))

/-- Month names as produced by the en-US long month formatter followed by
toUpperCase, indexed by getMonth(). -/
def monthNamesUpper : List String :=
  ["JANUARY", "FEBRUARY", "MARCH", "APRIL", "MAY", "JUNE", "JULY", "AUGUST",
    "SEPTEMBER", "OCTOBER", "NOVEMBER", "DECEMBER"]

/-- The getMonthLabel function: the uppercase month name of the parsed
date, Unknown when unparsable. -/
def getMonthLabel (tz : ℤ) (v : Option String) : String :=
  match parseReceiptDate tz v with
  | none => "Unknown"
  | some ms => (monthNamesUpper.getD (jsGetMonth tz ms).toNat "UNKNOWN")

/-- Year key of the grouping: String(getFullYear()) or Unknown. -/
def txYearKey (tz : ℤ) (t : Transaction) : String :=
  match parseReceiptDate tz t.date with
  | some ms => intToString (jsGetFullYear tz ms)
  | none => "Unknown"

/-- Month key of the grouping. -/
def txMonthKey (tz : ℤ) (t : Transaction) : String :=
  getMonthLabel tz t.date

/-- Appends a value at a key of an insertion-ordered association list (the
JavaScript Map semantics of the grouping loop). -/
def pushAssoc (k : String) (v : α) : List (String × List α) → List (String × List α)
  | [] => [(k, [v])]
  | (k', vs) :: rest =>
    if k' = k then (k', vs ++ [v]) :: rest else (k', vs) :: pushAssoc k v rest

/-- Appends a transaction under a year and month key of the two-level
grouping map. -/
def pushYearMonth (y mo : String) (t : Transaction) :
    List (String × List (String × List Transaction)) →
      List (String × List (String × List Transaction))
  | [] => [(y, [(mo, [t])])]
  | (y', ms) :: rest =>
    if y' = y then (y', pushAssoc mo t ms) :: rest else (y', ms) :: pushYearMonth y mo t rest

/-- Year comparator of the grouping: Unknown sorts last, otherwise the
numeric values descending. -/
def yearCompare (a b : String × List (String × List Transaction)) : Option JsRat :=
  if a.1 = "Unknown" then some (JsRat.ofInt 1)
  else if b.1 = "Unknown" then some (JsRat.ofInt (-1))
  else
    match jsStringToNumber b.1, jsStringToNumber a.1 with
    | JsNum.finite qb, JsNum.finite qa => some (qb.add qa.neg)
    | _, _ => none

/-- Index of a month label in the fixed calendar order (indexOf, -1 when
absent). -/
def monthOrderIndex (m : String) : ℤ :=
  match (monthNamesUpper ++ ["UNKNOWN"]).indexOf? m with
  | some i => (i : ℤ)
  | none => -1

/-- Month comparator of the grouping: calendar order. -/
def monthCompare (a b : String × List Transaction) : Option JsRat :=
  some (JsRat.ofInt (monthOrderIndex a.1 - monthOrderIndex b.1))

/-- The groupTransactionsByYearAndMonth function: partition by year then
month preserving insertion order, sort years descending with Unknown
last, sort months in calendar order. -/
def groupTransactionsByYearAndMonth (tz : ℤ) (txs : List Transaction) :
    List (String × List (String × List Transaction)) :=
  let grouped := txs.foldl (fun acc t => pushYearMonth (txYearKey tz t) (txMonthKey tz t) t acc) []
  (jsArraySort yearCompare grouped).map (fun p => (p.1, jsArraySort monthCompare p.2))

/-- Value passed to escapeCsvValue: a string, a number or null. -/
inductive CsvValue where
  | nullV : CsvValue
  | strV : String → CsvValue
  | numV : JsNum → CsvValue
deriving DecidableEq

/-- Text of a CSV value before quoting: none for null, the String()
conversion otherwise. -/
def csvText : CsvValue → Option String
  | CsvValue.nullV => none
  | CsvValue.strV s => some s
  | CsvValue.numV n => some (jsNumToString n)

/-- Doubles every double quote of a character list (the replace of the
CSV escaping). -/
def dupQuoteChars (cs : List Char) : List Char :=
  cs.foldr (fun c acc => if c = '"' then '"' :: '"' :: acc else c :: acc) []

/-- Doubles every double quote of a string. -/
def dupQuotes (s : String) : String :=
  String.mk (dupQuoteChars s.data)

/-- Does a CSV field need quoting (a comma, a double quote or a newline
occurs in it)? -/
def csvNeedsQuoting (text : String) : Bool :=
  jsIncludes text ',' || jsIncludes text '"' || jsIncludes text '\n'

/-- The escapeCsvValue function: null becomes the empty field; a field
containing a comma, a double quote or a newline is wrapped in double
quotes with inner quotes doubled; other fields pass through. -/
def escapeCsvValue (v : CsvValue) : String :=
  match csvText v with
  | none => ""
  | some text =>
    if csvNeedsQuoting text then "\"" ++ dupQuotes text ++ "\""
    else text

/-- Join with a separator (Array.prototype.join). -/
def joinWith (sep : String) : List String → String
  | [] => ""
  | [x] => x
  | x :: xs => x ++ sep ++ joinWith sep xs

/-- Mode of the reference CSV reader. -/
inductive CsvMode where
  | plain : CsvMode
  | quoted : CsvMode
  | post : CsvMode

/-- Reference RFC-4180 CSV record reader (the standard CSV reader of the
round-trip property): fields split on commas, a field opening with a
double quote is read to the matching close with doubled quotes collapsed;
newlines inside quotes are literal. Stray characters after a closing
quote are skipped leniently (the writer never produces them). -/
def csvReadAux : CsvMode → List Char → List Char → List String
  | CsvMode.plain, acc, [] => [String.mk acc.reverse]
  | CsvMode.plain, acc, c :: rest =>
    if c = ',' then String.mk acc.reverse :: csvReadAux CsvMode.plain [] rest
    else if c = '"' ∧ acc = [] then csvReadAux CsvMode.quoted [] rest
    else csvReadAux CsvMode.plain (c :: acc) rest
  | CsvMode.quoted, acc, [] => [String.mk acc.reverse]
  | CsvMode.quoted, acc, c :: rest =>
    if c = '"' then
      match rest with
      | [] => [String.mk acc.reverse]
      | c' :: rest' =>
        if c' = '"' then csvReadAux CsvMode.quoted ('"' :: acc) rest'
        else if c' = ',' then String.mk acc.reverse :: csvReadAux CsvMode.plain [] rest'
        else csvReadAux CsvMode.post acc rest'
    else csvReadAux CsvMode.quoted (c :: acc) rest
  | CsvMode.post, acc, [] => [String.mk acc.reverse]
  | CsvMode.post, acc, c :: rest =>
    if c = ',' then String.mk acc.reverse :: csvReadAux CsvMode.plain [] rest
    else csvReadAux CsvMode.post acc rest

/-- Reads one CSV record into its fields. -/
def csvReadRecord (s : String) : List String :=
  csvReadAux CsvMode.plain [] s.data

/-- One exported CSV row of a transaction: id, merchant, amount, date. -/
def transactionCsvRow (t : Transaction) : String :=
  joinWith ","
    [escapeCsvValue (CsvValue.strV t.id),
     escapeCsvValue (CsvValue.strV t.merchant),
     escapeCsvValue (match t.amount with
       | some q => CsvValue.numV (JsNum.finite q)
       | none => CsvValue.nullV),
     escapeCsvValue (match t.date with
       | some s => CsvValue.strV s
       | none => CsvValue.nullV)]

/-- Produced export file: name and full content (the blob parts
concatenated). -/
structure ExportFile where
  fileName : String
  content : String
deriving DecidableEq

/-- The pure content of handleExport: none when nothing is selected, else
the CSV of the selected rows with header and UTF-8 BOM, named with the
current local date. The share/download mechanics are presentation. -/
def handleExportStep (txs : List Transaction) (selected : List String) (tz nowMs : ℤ) :
    Option ExportFile :=
  if selected.length = 0 then none
  else
    let exportRows := txs.filter (fun t => selected.contains t.id)
    let csv := joinWith "\n" ("id,merchant,amount,date" :: exportRows.map transactionCsvRow)
    let fileDate :=
      intToString (jsGetFullYear tz nowMs) ++ "-" ++
        padZeros 2 (intToString (jsGetMonth tz nowMs + 1)) ++ "-" ++
        padZeros 2 (intToString (jsGetDate tz nowMs))
    some
      { fileName := "transactions-" ++ fileDate ++ ".csv"
        content := "\uFEFF" ++ csv }

/-- Status of the bulk delete flow. -/
inductive BulkStatus where
  | idle : BulkStatus
  | deleting : BulkStatus
  | error : BulkStatus
  | success : BulkStatus
deriving DecidableEq

/-- State slice of the transactions page the delete handler touches. -/
structure TxPageState where
  transactions : List Transaction
  selectedIds : List String
  bulkDeleteStatus : BulkStatus
  bulkDeleteMessage : String
deriving DecidableEq

/-- Body of the bulk DELETE request: the parsed ids. -/
structure DeleteRequest where
  ids : List JsNum
deriving DecidableEq

/-- The Number.isInteger(id) and id greater than zero filter predicate. -/
def jsIsPositiveIntegerNum : JsNum → Bool
  | JsNum.finite q => q.isInt && JsRat.ltB (JsRat.ofInt 0) q
  | _ => false

/-- Synchronous part of the handleDelete handler: guards, id validation,
and either the error state (no request) or the deleting state with the
one bulk DELETE request it issues. -/
def handleDeleteStep (st : TxPageState) : TxPageState × List DeleteRequest :=
  if st.selectedIds.length = 0 ∨ st.bulkDeleteStatus = BulkStatus.deleting then (st, [])
  else
    let parsedIds := (st.selectedIds.map jsStringToNumber).filter jsIsPositiveIntegerNum
    if parsedIds.length ≠ st.selectedIds.length then
      ({ st with
          bulkDeleteStatus := BulkStatus.error,
          bulkDeleteMessage := "Some selected receipts have invalid ids and cannot be deleted." },
        [])
    else
      ({ st with bulkDeleteStatus := BulkStatus.deleting, bulkDeleteMessage := "" },
        [⟨parsedIds⟩])

/-- Line item of the receipt detail. -/
structure ReceiptItem where
  description : String
  quantity : Option JsRat
  unitPrice : Option JsRat
  totalPrice : Option JsRat
deriving DecidableEq

/-- Receipt detail record. -/
structure ReceiptDetail where
  receiptId : Option JsRat
  merchantName : String
  receiptDate : String
  currency : String
  imageId : Option JsRat
  imageUrl : String
  reviewed : Option Bool
  subtotal : Option JsRat
  tax : Option JsRat
  total : Option JsRat
  items : List ReceiptItem
deriving DecidableEq

/-- Editable line item (all inputs are strings). -/
structure EditableItem where
  id : String
  description : String
  quantity : String
  unitPrice : String
  totalPrice : String
deriving DecidableEq

/-- Editable receipt projection (all inputs are strings). -/
structure EditableReceipt where
  merchantName : String
  receiptDate : String
  currency : String
  subtotal : String
  tax : String
  total : String
  items : List EditableItem
deriving DecidableEq

/-- UTC calendar-date slice of toISOString (years 0..9999). -/
def isoDateSlice (ms : ℤ) : String :=
  let c := civilFromDays (Int.ediv ms 86400000)
  padZeros 4 (intToString c.1) ++ "-" ++ padZeros 2 (intToString c.2.1) ++ "-" ++
    padZeros 2 (intToString c.2.2)

/-- The toDateInputValue function: empty stays empty, an unparsable date
string passes through, a parsable one becomes the UTC date slice of its
ISO form. -/
def toDateInputValue (tz : ℤ) (value : String) : String :=
  if value = "" then ""
  else
    match jsDateParse tz value with
    | none => value
    | some ms => isoDateSlice ms

/-- Input string of a nullable numeric field: empty for null, String()
otherwise. -/
def optNumToInput : Option JsRat → String
  | none => ""
  | some q => ratToString q

/-- The buildEditableReceipt function (now is the Date.now() value used
in the synthetic item keys). -/
def buildEditableReceipt (tz now : ℤ) (src : ReceiptDetail) : EditableReceipt :=
  { merchantName := src.merchantName
    receiptDate := toDateInputValue tz src.receiptDate
    currency := src.currency
    subtotal := optNumToInput src.subtotal
    tax := optNumToInput src.tax
    total := optNumToInput src.total
    items := src.items.enum.map (fun p =>
      { id := p.2.description ++ "-" ++ natToString p.1 ++ "-" ++ intToString now
        description := p.2.description
        quantity := optNumToInput p.2.quantity
        unitPrice := optNumToInput p.2.unitPrice
        totalPrice := optNumToInput p.2.totalPrice }) }

/-- The toComparableNumber function: Number() of the input when finite,
null otherwise. -/
def toComparableNumber (value : String) : Option JsRat :=
  match jsStringToNumber value with
  | JsNum.finite q => some q
  | _ => none

/-- The isReceiptEdited dirty check: field-wise comparison of the edit
state against the fetched snapshot, numeric fields compared as parsed
numbers, string fields compared against the trimmed input. -/
def isReceiptEdited (tz : ℤ) (detail : ReceiptDetail) (edit : EditableReceipt) : Bool :=
  decide (detail.merchantName ≠ jsTrim edit.merchantName) ||
  decide (toDateInputValue tz detail.receiptDate ≠ edit.receiptDate) ||
  decide (detail.currency ≠ jsTrim edit.currency) ||
  decide (detail.subtotal ≠ toComparableNumber edit.subtotal) ||
  decide (detail.tax ≠ toComparableNumber edit.tax) ||
  decide (detail.total ≠ toComparableNumber edit.total) ||
  decide (detail.items.length ≠ edit.items.length) ||
  (detail.items.zip edit.items).any (fun p =>
    decide (p.1.description ≠ jsTrim p.2.description) ||
    decide (p.1.quantity ≠ toComparableNumber p.2.quantity) ||
    decide (p.1.unitPrice ≠ toComparableNumber p.2.unitPrice) ||
    decide (p.1.totalPrice ≠ toComparableNumber p.2.totalPrice))

/-- Save status of the receipt detail page. -/
inductive SaveStatus where
  | idle : SaveStatus
  | saving : SaveStatus
  | success : SaveStatus
  | error : SaveStatus
deriving DecidableEq

/-- State slice the save handler touches. -/
structure ReceiptPageState where
  detail : Option ReceiptDetail
  editDetail : Option EditableReceipt
  saveStatus : SaveStatus
  saveMessage : String
deriving DecidableEq

/-- Item of the PUT body of a save. -/
structure SavePayloadItem where
  description : String
  quantity : Option JsRat
  unitPrice : Option JsRat
  totalPrice : Option JsRat
deriving DecidableEq

/-- PUT body of a save request. -/
structure SavePayload where
  merchantName : String
  receiptDate : String
  currency : String
  subtotal : Option JsRat
  tax : Option JsRat
  total : Option JsRat
  items : List SavePayloadItem
deriving DecidableEq

/-- Synchronous decision part of handleSaveReceipt: the guard on a falsy
receipt id or an in-flight save, the dirty-check short-circuit that sets
the no-changes message without any request, and otherwise the transition
to saving with the one PUT request carrying the parsed payload. -/
def handleSaveReceiptStep (tz : ℤ) (st : ReceiptPageState) :
    ReceiptPageState × List SavePayload :=
  match st.detail, st.editDetail with
  | some detail, some edit =>
    if detail.receiptId = none ∨ detail.receiptId = some (JsRat.ofInt 0) ∨
        st.saveStatus = SaveStatus.saving then (st, [])
    else if isReceiptEdited tz detail edit = false then
      ({ st with saveStatus := SaveStatus.idle, saveMessage := "No changes to save." }, [])
    else
      ({ st with saveStatus := SaveStatus.saving, saveMessage := "" },
        [{ merchantName := jsTrim edit.merchantName
           receiptDate := edit.receiptDate
           currency := jsTrim edit.currency
           subtotal := toComparableNumber edit.subtotal
           tax := toComparableNumber edit.tax
           total := toComparableNumber edit.total
           items := edit.items.map (fun item =>
             { description := if jsTrim item.description = "" then "Item" else jsTrim item.description
               quantity := toComparableNumber item.quantity
               unitPrice := toComparableNumber item.unitPrice
               totalPrice := toComparableNumber item.totalPrice }) }])
  | _, _ => (st, [])

/-- Association lookup in a string environment. -/
def lookupStr (l : List (String × String)) (k : String) : Option String :=
  match l with
  | [] => none
  | (k', v) :: rest => if k' = k then some v else lookupStr rest k

/-- The readEnv function of the broker: the process environment first
(trimmed, when non-blank), then the pre-parsed secrets blob (the JSON or
line-delimited parsing of the secrets variable is modelled as an already
materialized association list), else empty. -/
def readEnvVar (env secrets : List (String × String)) (name : String) : String :=
  let fromEnv :=
    match lookupStr env name with
    | some v => if jsTrim v = "" then "" else jsTrim v
    | none => ""
  if fromEnv ≠ "" then fromEnv
  else
    match lookupStr secrets name with
    | some w => if jsTrim w = "" then "" else jsTrim w
    | none => ""

/-- The readFirstEnv function: first name with a non-empty value. -/
def readFirstEnvVar (env secrets : List (String × String)) : List String → String
  | [] => ""
  | n :: ns =>
    let v := readEnvVar env secrets n
    if v ≠ "" then v else readFirstEnvVar env secrets ns

/-- ASCII lowercase conversion of a character. -/
def jsToLowerChar (c : Char) : Char :=
  if 'A' ≤ c ∧ c ≤ 'Z' then Char.ofNat (c.toNat + 32) else c

/-- String.prototype.toLowerCase over the ASCII fragment. -/
def lowerString (s : String) : String :=
  String.mk (s.data.map jsToLowerChar)

/-- The extensionFromName function: the lowercase suffix after the last
dot when it is non-empty and made of lowercase letters and digits, else
the jpg default. -/
def extensionFromName (fileName : String) : String :=
  let lower := (lowerString fileName).data
  if lower.contains '.' then
    let suffix := (lower.reverse.takeWhile (fun c => c ≠ '.')).reverse
    if suffix ≠ [] ∧ suffix.all (fun c => c.isDigit ∨ ('a' ≤ c ∧ c ≤ 'z')) then
      String.mk suffix
    else "jpg"
  else "jpg"

/-- Response of the broker route: HTTP status and JSON body fields. -/
structure BrokerResult where
  status : ℕ
  body : List (String × Json)

/-- The POST handler of the s3-upload broker route. The current UTC date
slice, the random UUID and the two signed URLs produced by the external
signer are oracle parameters (the handler never persists them); the
signed-URL expiry computation only feeds that signer. A missing required
environment variable throws and is caught into the 500 branch. -/
def brokerPOST (env secrets : List (String × String))
    (todayIso uuid uploadUrlSig readUrlSig : String) (body : Option Json) : BrokerResult :=
  let region := readFirstEnvVar env secrets ["AWS_REGION", "S3_REGION"]
  if region = "" then
    ⟨500, [("message", Json.str "Missing environment variable: AWS_REGION / S3_REGION")]⟩
  else
    let bucket := readFirstEnvVar env secrets ["AWS_S3_BUCKET", "S3_BUCKET"]
    if bucket = "" then
      ⟨500, [("message", Json.str "Missing environment variable: AWS_S3_BUCKET / S3_BUCKET")]⟩
    else
      let payloadFields :=
        match body with
        | some (Json.obj fs) => fs
        | _ => []
      let fileName :=
        match jsonLookup payloadFields "fileName" with
        | some (Json.str s) => s
        | _ => ""
      let contentType :=
        match jsonLookup payloadFields "contentType" with
        | some (Json.str s) => s
        | _ => ""
      if jsTrim fileName = "" then ⟨400, [("message", Json.str "fileName is required.")]⟩
      else if jsStartsWith contentType "image/" = false then
        ⟨400, [("message", Json.str "Only image files are supported.")]⟩
      else
        let extension := extensionFromName fileName
        let key := "receipts/" ++ todayIso ++ "/" ++ uuid ++ "." ++ extension
        ⟨200,
          [("uploadUrl", Json.str uploadUrlSig), ("url", Json.str readUrlSig),
            ("key", Json.str key)]⟩

/-- State slice of the dashboard the recent-receipts fetch touches. -/
structure DashboardState where
  recentReceipts : List Receipt
  isLoadingRecentReceipts : Bool
  recentReceiptsError : String
deriving DecidableEq

/-- A settled fetch outcome: the ok flag and the parsed JSON body
(Json.null when the body failed to parse). -/
structure FetchResponse where
  ok : Bool
  payload : Json

/-- Error text extraction: the message field of the payload when it is a
non-blank string, else the fallback. -/
def payloadErrorMessage (payload : Json) (fallback : String) : String :=
  match toObjectFields payload with
  | some fields =>
    match jsonLookup fields "message" with
    | some (Json.str s) => if jsTrim s = "" then fallback else s
    | _ => fallback
  | none => fallback

/-- Completion of one fetchRecentReceipts call: on success the dashboard
keeps the first fifteen normalized receipts; on failure it clears the
list and stores the error message. -/
def fetchRecentReceiptsStep (tz : ℤ) (resp : FetchResponse) : DashboardState :=
  if resp.ok then
    { recentReceipts := (normalizeReceipts tz resp.payload).take 15
      isLoadingRecentReceipts := false
      recentReceiptsError := "" }
  else
    { recentReceipts := []
      isLoadingRecentReceipts := false
      recentReceiptsError := payloadErrorMessage resp.payload "Failed to load recent documents." }

/-! Claim theorems. -/

/-- C10: after a successful recent-receipts fetch the dashboard stores at
most fifteen receipts, and the list kept in state is exactly the first
fifteen entries (or fewer) of the normalized, sorted sequence produced by
normalizeReceipts. -/
theorem fetchRecentReceipts_stores_first_fifteen (tz : ℤ) (payload : Json) :
    (fetchRecentReceiptsStep tz ⟨true, payload⟩).recentReceipts =
        (normalizeReceipts tz payload).take 15 ∧
      (fetchRecentReceiptsStep tz ⟨true, payload⟩).recentReceipts.length ≤ 15 := by
  refine ⟨rfl, ?_⟩
  show ((normalizeReceipts tz payload).take 15).length ≤ 15
  rw [List.length_take]
  exact min_le_left _ _

/-- Specification-side restatement of the numeric-coercion contract, from
the claim wording: a finite number is returned as is, a string whose
numeric parse is finite is returned as that number, and every other value
(non-numeric string, boolean, object, array, null, undefined and the
non-finite numbers) yields null; the return type has no NaN inhabitant
and the function is total. -/
def toNumberClaim : Json → Option JsRat
  | Json.num (JsNum.finite q) => some q
  | Json.str s =>
    match jsStringToNumber s with
    | JsNum.finite q => some q
    | _ => none
  | _ => none

/-- C9: the numeric coercion toNumber is total, never yields NaN, and
agrees on every JavaScript value with the claimed case analysis. -/
theorem toNumber_total_never_nan (v : Json) : toNumber v = toNumberClaim v := by
  cases v with
  | null => rfl
  | bool b => rfl
  | num n => cases n <;> rfl
  | str s => rfl
  | arr xs => rfl
  | obj fields => rfl

/-- Specification-side restatement of the status-derivation rule, from
the claim wording: a boolean reviewed field maps to the exact literals
Reviewed / Unreview; without one, the status is the first non-blank
string among the status, processingStatus and state fields (as the
normalizer stores it, trimmed); otherwise Unknown. -/
def claimStatusSpec (fields : List (String × Json)) : String :=
  match jsonLookup fields "reviewed" with
  | some (Json.bool true) => "Reviewed"
  | some (Json.bool false) => "Unreview"
  | _ => (readFirstString fields ["status", "processingStatus", "state"]).getD "Unknown"

/-- C3: the status the normalizer derives for every raw entry follows the
claimed rule (through the full normalizeReceipts pipeline on the entry),
and in particular an entry with no reviewed field and status pending
yields pending. -/
theorem normalizeReceipts_status_derivation (tz : ℤ) (fields : List (String × Json)) :
    (normalizeReceipts tz (Json.arr [Json.obj fields])).map Receipt.status =
        [claimStatusSpec fields] ∧
      claimStatusSpec [("status", Json.str "pending")] = "pending" := by
  exact ⟨rfl, by decide⟩

/-- C1 counterexample: a fully accepted request to the broker (non-empty
fileName, image content type, resolvable region and bucket) yields a 200
response whose body carries uploadUrl, url and key, and carries neither
an imageId nor an objectKey field — against the claimed
imageId/objectKey/uploadUrl contract. -/
theorem brokerPOST_accepted_lacks_imageId :
    (brokerPOST [("AWS_REGION", "us-east-1"), ("AWS_S3_BUCKET", "bkt")] []
        "2025-01-01" "uuid-1234" "https://put.example" "https://get.example"
        (some (Json.obj
          [("fileName", Json.str "a.jpg"), ("contentType", Json.str "image/jpeg"),
            ("sizeBytes", Json.num (JsNum.finite (JsRat.ofInt 100)))]))).status = 200 ∧
      jsonLookup (brokerPOST [("AWS_REGION", "us-east-1"), ("AWS_S3_BUCKET", "bkt")] []
        "2025-01-01" "uuid-1234" "https://put.example" "https://get.example"
        (some (Json.obj
          [("fileName", Json.str "a.jpg"), ("contentType", Json.str "image/jpeg"),
            ("sizeBytes", Json.num (JsNum.finite (JsRat.ofInt 100)))]))).body "uploadUrl" =
        some (Json.str "https://put.example") ∧
      jsonLookup (brokerPOST [("AWS_REGION", "us-east-1"), ("AWS_S3_BUCKET", "bkt")] []
        "2025-01-01" "uuid-1234" "https://put.example" "https://get.example"
        (some (Json.obj
          [("fileName", Json.str "a.jpg"), ("contentType", Json.str "image/jpeg"),
            ("sizeBytes", Json.num (JsNum.finite (JsRat.ofInt 100)))]))).body "imageId" = none ∧
      jsonLookup (brokerPOST [("AWS_REGION", "us-east-1"), ("AWS_S3_BUCKET", "bkt")] []
        "2025-01-01" "uuid-1234" "https://put.example" "https://get.example"
        (some (Json.obj
          [("fileName", Json.str "a.jpg"), ("contentType", Json.str "image/jpeg"),
            ("sizeBytes", Json.num (JsNum.finite (JsRat.ofInt 100)))]))).body "objectKey" = none :=
  ⟨rfl, rfl, rfl, rfl⟩

/-- C1 amended: on every accepted request (non-empty trimmed fileName,
contentType starting with image/, resolvable region and bucket) the
broker returns 200 with a body whose fields are uploadUrl (the signed PUT
URL), url (the signed read URL) and key (the generated object key); the
body has no imageId and no objectKey field — that shape belongs to the
backend upload-url endpoint the dashboard calls, which is not part of
this repository. -/
theorem brokerPOST_accepted_response_fields
    (env secrets : List (String × String)) (todayIso uuid upl rdl : String)
    (fs : List (String × Json)) (fn ct : String)
    (hr : readFirstEnvVar env secrets ["AWS_REGION", "S3_REGION"] ≠ "")
    (hb : readFirstEnvVar env secrets ["AWS_S3_BUCKET", "S3_BUCKET"] ≠ "")
    (hfn : jsonLookup fs "fileName" = some (Json.str fn))
    (hct : jsonLookup fs "contentType" = some (Json.str ct))
    (hfn' : jsTrim fn ≠ "")
    (hct' : jsStartsWith ct "image/" = true) :
    (brokerPOST env secrets todayIso uuid upl rdl (some (Json.obj fs))).status = 200 ∧
      (brokerPOST env secrets todayIso uuid upl rdl (some (Json.obj fs))).body =
        [("uploadUrl", Json.str upl), ("url", Json.str rdl),
          ("key", Json.str ("receipts/" ++ todayIso ++ "/" ++ uuid ++ "." ++
            extensionFromName fn))] ∧
      jsonLookup (brokerPOST env secrets todayIso uuid upl rdl (some (Json.obj fs))).body
        "imageId" = none ∧
      jsonLookup (brokerPOST env secrets todayIso uuid upl rdl (some (Json.obj fs))).body
        "objectKey" = none := by
  have hres : brokerPOST env secrets todayIso uuid upl rdl (some (Json.obj fs)) =
      ⟨200, [("uploadUrl", Json.str upl), ("url", Json.str rdl),
        ("key", Json.str ("receipts/" ++ todayIso ++ "/" ++ uuid ++ "." ++
          extensionFromName fn))]⟩ := by
    unfold brokerPOST
    rw [if_neg hr, if_neg hb]
    simp only [hfn, hct]
    rw [if_neg hfn', if_neg (by simp [hct'])]
  rw [hres]
  refine ⟨rfl, rfl, rfl, rfl⟩

/-- C1 witness: the amended broker theorem applied at a concrete accepted
request. -/
theorem brokerPOST_accepted_response_fields_witness :
    (brokerPOST [("AWS_REGION", "us-east-1"), ("AWS_S3_BUCKET", "bkt")] []
        "2025-01-01" "uuid-1234" "https://put.example" "https://get.example"
        (some (Json.obj
          [("fileName", Json.str "photo.JPG"), ("contentType", Json.str "image/jpeg")]))).status =
        200 ∧
      jsonLookup (brokerPOST [("AWS_REGION", "us-east-1"), ("AWS_S3_BUCKET", "bkt")] []
        "2025-01-01" "uuid-1234" "https://put.example" "https://get.example"
        (some (Json.obj
          [("fileName", Json.str "photo.JPG"), ("contentType", Json.str "image/jpeg")]))).body
        "imageId" = none := by
  have h := brokerPOST_accepted_response_fields
    [("AWS_REGION", "us-east-1"), ("AWS_S3_BUCKET", "bkt")] []
    "2025-01-01" "uuid-1234" "https://put.example" "https://get.example"
    [("fileName", Json.str "photo.JPG"), ("contentType", Json.str "image/jpeg")]
    "photo.JPG" "image/jpeg" (by decide) (by decide) rfl rfl (by decide) (by decide)
  exact ⟨h.1, h.2.2.1⟩

/-- C6: bulk delete aborts on any invalid selected id (one that does not
parse to a positive integer): the handler sets the validation error
message, issues zero network delete requests, and leaves the transactions
and the selection unchanged. -/
theorem handleDelete_invalid_id_aborts (st : TxPageState)
    (hstat : st.bulkDeleteStatus ≠ BulkStatus.deleting)
    (hbad : ∃ id ∈ st.selectedIds, jsIsPositiveIntegerNum (jsStringToNumber id) = false) :
    (handleDeleteStep st).2 = [] ∧
      (handleDeleteStep st).1.transactions = st.transactions ∧
      (handleDeleteStep st).1.selectedIds = st.selectedIds ∧
      (handleDeleteStep st).1.bulkDeleteStatus = BulkStatus.error ∧
      (handleDeleteStep st).1.bulkDeleteMessage =
        "Some selected receipts have invalid ids and cannot be deleted." := by
  obtain ⟨badId, hmem, hinv⟩ := hbad
  have hne : st.selectedIds.length ≠ 0 := by
    intro hlen
    rw [List.length_eq_zero] at hlen
    rw [hlen] at hmem
    exact (List.not_mem_nil badId) hmem
  have hfilter :
      ((st.selectedIds.map jsStringToNumber).filter jsIsPositiveIntegerNum).length ≠
        st.selectedIds.length := by
    intro hc
    rw [← List.length_map st.selectedIds jsStringToNumber] at hc
    rw [List.filter_length_eq_length] at hc
    have htrue := hc (jsStringToNumber badId) (List.mem_map_of_mem _ hmem)
    rw [hinv] at htrue
    exact Bool.noConfusion htrue
  unfold handleDeleteStep
  rw [if_neg (by
    intro hor
    rcases hor with h | h
    · exact hne h
    · exact hstat h)]
  rw [if_pos hfilter]
  exact ⟨rfl, rfl, rfl, rfl, rfl⟩

/-- C6 witness: the abort theorem applied to the selection with ids 3 and
abc from an idle transactions page. -/
theorem handleDelete_invalid_id_aborts_witness :
    (handleDeleteStep ⟨[], ["3", "abc"], BulkStatus.idle, ""⟩).2 = [] ∧
      (handleDeleteStep ⟨[], ["3", "abc"], BulkStatus.idle, ""⟩).1.transactions = [] ∧
      (handleDeleteStep ⟨[], ["3", "abc"], BulkStatus.idle, ""⟩).1.selectedIds = ["3", "abc"] ∧
      (handleDeleteStep ⟨[], ["3", "abc"], BulkStatus.idle, ""⟩).1.bulkDeleteStatus =
        BulkStatus.error ∧
      (handleDeleteStep ⟨[], ["3", "abc"], BulkStatus.idle, ""⟩).1.bulkDeleteMessage =
        "Some selected receipts have invalid ids and cannot be deleted." :=
  handleDelete_invalid_id_aborts ⟨[], ["3", "abc"], BulkStatus.idle, ""⟩ (by decide)
    ⟨"abc", by decide, by decide⟩

/-- Timezone cancellation: the local epoch-day of a locally constructed
date is its MakeDay value, for every timezone offset. -/
theorem localDays_mkDateLocal (tz y m d : ℤ) :
    localDays tz (mkDateLocal tz y m d) = jsMakeDay y m d := by
  unfold localDays mkDateLocal
  have h : jsMakeDay y m d * 86400000 - tz * 60000 + tz * 60000 =
      jsMakeDay y m d * 86400000 := by ring
  rw [h]
  exact Int.mul_ediv_cancel _ (by norm_num)

/-- Local year of the locally constructed 2024-01-31, every timezone. -/
theorem getFullYear_local_jan (tz : ℤ) : jsGetFullYear tz (mkDateLocal tz 2024 0 31) = 2024 := by
  unfold jsGetFullYear localCivil
  rw [localDays_mkDateLocal]
  decide

/-- Local month index of the locally constructed 2024-01-31. -/
theorem getMonth_local_jan (tz : ℤ) : jsGetMonth tz (mkDateLocal tz 2024 0 31) = 0 := by
  unfold jsGetMonth localCivil
  rw [localDays_mkDateLocal]
  decide

/-- Local year of the locally constructed 2024-02-01, every timezone. -/
theorem getFullYear_local_feb (tz : ℤ) : jsGetFullYear tz (mkDateLocal tz 2024 1 1) = 2024 := by
  unfold jsGetFullYear localCivil
  rw [localDays_mkDateLocal]
  decide

/-- Local month index of the locally constructed 2024-02-01. -/
theorem getMonth_local_feb (tz : ℤ) : jsGetMonth tz (mkDateLocal tz 2024 1 1) = 1 := by
  unfold jsGetMonth localCivil
  rw [localDays_mkDateLocal]
  decide

/-- C4: parseReceiptDate special-cases pure YYYY-MM-DD strings into a
local-time construction, so grouping places 2024-01-31 under January
2024 and 2024-02-01 under February 2024 in every evaluating timezone. -/
theorem groupTransactions_local_time_grouping (tz : ℤ) :
    parseReceiptDate tz (some "2024-01-31") = some (mkDateLocal tz 2024 0 31) ∧
      parseReceiptDate tz (some "2024-02-01") = some (mkDateLocal tz 2024 1 1) ∧
      groupTransactionsByYearAndMonth tz
          [⟨"1", "A", none, some "2024-01-31"⟩, ⟨"2", "B", none, some "2024-02-01"⟩] =
        [("2024",
          [("JANUARY", [⟨"1", "A", none, some "2024-01-31"⟩]),
            ("FEBRUARY", [⟨"2", "B", none, some "2024-02-01"⟩])])] := by
  have hp1 : parseReceiptDate tz (some "2024-01-31") = some (mkDateLocal tz 2024 0 31) := rfl
  have hp2 : parseReceiptDate tz (some "2024-02-01") = some (mkDateLocal tz 2024 1 1) := rfl
  have hy1 : txYearKey tz ⟨"1", "A", none, some "2024-01-31"⟩ = "2024" := by
    unfold txYearKey
    rw [hp1]
    show intToString (jsGetFullYear tz (mkDateLocal tz 2024 0 31)) = "2024"
    rw [getFullYear_local_jan]
    decide
  have hy2 : txYearKey tz ⟨"2", "B", none, some "2024-02-01"⟩ = "2024" := by
    unfold txYearKey
    rw [hp2]
    show intToString (jsGetFullYear tz (mkDateLocal tz 2024 1 1)) = "2024"
    rw [getFullYear_local_feb]
    decide
  have hm1 : txMonthKey tz ⟨"1", "A", none, some "2024-01-31"⟩ = "JANUARY" := by
    unfold txMonthKey getMonthLabel
    rw [hp1]
    show monthNamesUpper.getD (jsGetMonth tz (mkDateLocal tz 2024 0 31)).toNat "UNKNOWN" =
      "JANUARY"
    rw [getMonth_local_jan]
    decide
  have hm2 : txMonthKey tz ⟨"2", "B", none, some "2024-02-01"⟩ = "FEBRUARY" := by
    unfold txMonthKey getMonthLabel
    rw [hp2]
    show monthNamesUpper.getD (jsGetMonth tz (mkDateLocal tz 2024 1 1)).toNat "UNKNOWN" =
      "FEBRUARY"
    rw [getMonth_local_feb]
    decide
  refine ⟨hp1, hp2, ?_⟩
  unfold groupTransactionsByYearAndMonth
  simp only [List.foldl_cons, List.foldl_nil, hy1, hy2, hm1, hm2]
  decide

/-- Two pointwise-equivalent relations insert identically. -/
theorem orderedInsert_congr {α : Type} (r s : α → α → Prop) [DecidableRel r] [DecidableRel s]
    (a : α) (l : List α) (h : ∀ b ∈ l, r a b ↔ s a b) :
    List.orderedInsert r a l = List.orderedInsert s a l := by
  induction l with
  | nil => rfl
  | cons b t ih =>
    simp only [List.orderedInsert]
    by_cases hr : r a b
    · rw [if_pos hr, if_pos ((h b (List.mem_cons_self b t)).1 hr)]
    · rw [if_neg hr, if_neg (fun hs => hr ((h b (List.mem_cons_self b t)).2 hs)),
        ih (fun c hc => h c (List.mem_cons_of_mem b hc))]

/-- Two relations that agree on the elements of a list sort it
identically. -/
theorem insertionSort_congr {α : Type} (r s : α → α → Prop) [DecidableRel r] [DecidableRel s]
    (l : List α) (h : ∀ a ∈ l, ∀ b ∈ l, r a b ↔ s a b) :
    List.insertionSort r l = List.insertionSort s l := by
  induction l with
  | nil => rfl
  | cons a t ih =>
    simp only [List.insertionSort]
    rw [ih (fun x hx y hy =>
      h x (List.mem_cons_of_mem a hx) y (List.mem_cons_of_mem a hy))]
    exact orderedInsert_congr r s a (List.insertionSort s t) (fun b hb =>
      h a (List.mem_cons_self a t) b
        (List.mem_cons_of_mem a ((List.mem_insertionSort s).1 hb)))

/-- Defaulted sort key of the dashboard receipt sort (NaN as 0, the way
the comparator result feeds SortCompare). -/
def receiptTimeD (tz : ℤ) (r : Receipt) : ℤ :=
  (receiptSortTime tz r).getD 0

/-- Descending-time relation of the dashboard receipt sort. -/
def receiptByTimeDesc (tz : ℤ) (a b : Receipt) : Prop :=
  receiptTimeD tz b ≤ receiptTimeD tz a

instance (tz : ℤ) : DecidableRel (receiptByTimeDesc tz) := fun a b => by
  unfold receiptByTimeDesc
  exact inferInstance

/-- C5 amended: on any payload whose normalized entries carry only
parsable (or absent) date strings, every entry whose date parses to a
positive timestamp precedes every entry whose date is absent; an entry
with a present but unparsable date string is outside this guarantee (its
comparator value is NaN, treated as no swap, so it keeps its relative
position instead of sorting last). -/
theorem normalizeReceipts_dated_before_undated (tz : ℤ) (payload : Json)
    (hp : ∀ r ∈ normalizeReceipts tz payload, ∀ s, r.date = some s → (jsDateParse tz s).isSome)
    (i j : ℕ) (hi : i < (normalizeReceipts tz payload).length)
    (hj : j < (normalizeReceipts tz payload).length)
    (hnone : ((normalizeReceipts tz payload).get ⟨i, hi⟩).date = none)
    (hpos : ∃ s t, ((normalizeReceipts tz payload).get ⟨j, hj⟩).date = some s ∧
      jsDateParse tz s = some t ∧ 0 < t) :
    j < i := by
  classical
  set pre := ((extractReceiptsRaw payload).enum).filterMap (fun p => coerceReceipt p.1 p.2) with hpre
  have hout : normalizeReceipts tz payload =
      List.insertionSort (fun a b => jsSortLeB (receiptCompare tz a b) = true) pre := rfl
  have hmem : ∀ r : Receipt, r ∈ pre → r ∈ normalizeReceipts tz payload := by
    intro r hr
    rw [hout]
    exact (List.mem_insertionSort _).2 hr
  have hsome : ∀ r ∈ pre, (receiptSortTime tz r).isSome = true := by
    intro r hr
    unfold receiptSortTime
    cases hd : r.date with
    | none => rfl
    | some s =>
      show (if s = "" then some 0 else jsDateParse tz s).isSome = true
      by_cases hse : s = ""
      · rw [if_pos hse]
        rfl
      · rw [if_neg hse]
        exact hp r (hmem r hr) s hd
  have hagree : ∀ a ∈ pre, ∀ b ∈ pre,
      ((jsSortLeB (receiptCompare tz a b) = true) ↔ receiptByTimeDesc tz a b) := by
    intro a ha b hb
    obtain ⟨ta, hta⟩ := Option.isSome_iff_exists.1 (hsome a ha)
    obtain ⟨tb, htb⟩ := Option.isSome_iff_exists.1 (hsome b hb)
    unfold receiptByTimeDesc receiptTimeD
    rw [hta, htb]
    unfold receiptCompare
    rw [hta, htb]
    show (decide ((JsRat.ofInt (tb - ta)).num ≤ 0) = true) ↔ (tb ≤ ta)
    unfold JsRat.ofInt
    simp only [decide_eq_true_eq]
    constructor
    · intro hle
      omega
    · intro hle
      omega
  have hEq : normalizeReceipts tz payload = List.insertionSort (receiptByTimeDesc tz) pre := by
    rw [hout]
    exact insertionSort_congr _ _ pre hagree
  haveI : IsTotal Receipt (receiptByTimeDesc tz) := ⟨fun a b => le_total _ _⟩
  haveI : IsTrans Receipt (receiptByTimeDesc tz) := ⟨fun a b c hab hbc => le_trans hbc hab⟩
  have hsorted : List.Sorted (receiptByTimeDesc tz) (normalizeReceipts tz payload) := by
    rw [hEq]
    exact List.sorted_insertionSort _ pre
  obtain ⟨s, t, hds, hparse, htpos⟩ := hpos
  have htimei : receiptTimeD tz ((normalizeReceipts tz payload).get ⟨i, hi⟩) = 0 := by
    unfold receiptTimeD receiptSortTime
    rw [hnone]
    rfl
  have hsne : s ≠ "" := by
    intro hse
    rw [hse] at hparse
    exact Option.noConfusion hparse
  have htimej : receiptTimeD tz ((normalizeReceipts tz payload).get ⟨j, hj⟩) = t := by
    unfold receiptTimeD receiptSortTime
    rw [hds]
    show ((if s = "" then some 0 else jsDateParse tz s).getD 0) = t
    rw [if_neg hsne, hparse]
    rfl
  rcases Nat.lt_trichotomy i j with hlt | heq | hgt
  · exfalso
    have hrel := hsorted.rel_get_of_lt (show (⟨i, hi⟩ : Fin _) < ⟨j, hj⟩ from hlt)
    unfold receiptByTimeDesc at hrel
    rw [htimei, htimej] at hrel
    omega
  · exfalso
    subst heq
    rw [hnone] at hds
    exact Option.noConfusion hds
  · exact hgt

/-- C5 witness: the amended sorting theorem applied to a payload with one
dated and one undated entry; the dated entry lands at index 0 and the
undated at index 1. -/
theorem normalizeReceipts_dated_before_undated_witness :
    (normalizeReceipts 0 (Json.arr [Json.obj [("date", Json.str "2024-03-01")], Json.obj []])).map
        Receipt.date = [some "2024-03-01", none] ∧ (0 : ℕ) < 1 :=
  ⟨by decide,
    normalizeReceipts_dated_before_undated 0
      (Json.arr [Json.obj [("date", Json.str "2024-03-01")], Json.obj []])
      (by decide) 1 0 (by decide) (by decide) (by decide)
      ⟨"2024-03-01", 1709251200000, by decide, by decide, by decide⟩⟩

/-- C5 counterexample: an entry with a present but unparsable date string
keeps its position ahead of a positively dated entry (the comparator
yields NaN, treated as no swap), so unparsable dates are not sorted
last as the claim states. -/
theorem normalizeReceipts_unparsable_not_last :
    (normalizeReceipts 0 (Json.arr
        [Json.obj [("date", Json.str "not-a-date")],
          Json.obj [("date", Json.str "2024-03-01")]])).map Receipt.date =
      [some "not-a-date", some "2024-03-01"] ∧
      jsDateParse 0 "not-a-date" = none ∧
      jsDateParse 0 "2024-03-01" = some 1709251200000 ∧ (0 : ℤ) < 1709251200000 :=
  ⟨by decide, by decide, by decide, by decide⟩

/-- Fuel irrelevance of the digit extraction: any sufficient fuel gives
the same digits. -/
theorem natDigitsRevAux_congr (f : ℕ) : ∀ (g n : ℕ), n ≤ f → n ≤ g →
    natDigitsRevAux f n = natDigitsRevAux g n := by
  induction f with
  | zero =>
    intro g n hf _
    have : n = 0 := Nat.le_zero.1 hf
    subst this
    cases g <;> rfl
  | succ f' ih =>
    intro g n hf hg
    cases n with
    | zero => cases g <;> rfl
    | succ m =>
      cases g with
      | zero => omega
      | succ g' =>
        show ((m + 1) % 10) :: natDigitsRevAux f' ((m + 1) / 10) =
          ((m + 1) % 10) :: natDigitsRevAux g' ((m + 1) / 10)
        congr 1
        have hdiv : (m + 1) / 10 < m + 1 := Nat.div_lt_self (Nat.succ_pos m) (by norm_num)
        exact ih g' ((m + 1) / 10) (by omega) (by omega)

/-- Unfolding of the digit list on a positive number. -/
theorem natDigitsRev_succ (n : ℕ) (h : n ≠ 0) :
    natDigitsRev n = (n % 10) :: natDigitsRev (n / 10) := by
  obtain ⟨m, rfl⟩ := Nat.exists_eq_succ_of_ne_zero h
  show ((m + 1) % 10) :: natDigitsRevAux m ((m + 1) / 10) =
    ((m + 1) % 10) :: natDigitsRevAux ((m + 1) / 10) ((m + 1) / 10)
  congr 1
  have hdiv : (m + 1) / 10 < m + 1 := Nat.div_lt_self (Nat.succ_pos m) (by norm_num)
  exact natDigitsRevAux_congr m ((m + 1) / 10) ((m + 1) / 10) (by omega) (le_refl _)

/-- The digit list is empty exactly on zero. -/
theorem natDigitsRev_eq_nil_iff (n : ℕ) : natDigitsRev n = [] ↔ n = 0 := by
  constructor
  · intro h
    by_contra hn
    rw [natDigitsRev_succ n hn] at h
    exact List.noConfusion h
  · intro h
    subst h
    rfl

/-- Every extracted digit is below ten. -/
theorem natDigitsRev_lt_ten (n : ℕ) : ∀ d ∈ natDigitsRev n, d < 10 := by
  induction n using Nat.strong_induction_on with
  | _ n ih =>
    by_cases h : n = 0
    · subst h
      intro d hd
      exact absurd hd (List.not_mem_nil d)
    · rw [natDigitsRev_succ n h]
      intro d hd
      rcases List.mem_cons.1 hd with rfl | hd'
      · exact Nat.mod_lt n (by norm_num)
      · exact ih (n / 10) (Nat.div_lt_self (Nat.pos_of_ne_zero h) (by norm_num)) d hd'

/-- The digit list determines the number. -/
theorem natDigitsRev_inj (n : ℕ) : ∀ m, natDigitsRev n = natDigitsRev m → n = m := by
  induction n using Nat.strong_induction_on with
  | _ n ih =>
    intro m h
    by_cases hn : n = 0
    · subst hn
      by_contra hm
      have : natDigitsRev m = [] := h.symm
      rw [natDigitsRev_eq_nil_iff] at this
      exact (Ne.symm hm) this
    · by_cases hm : m = 0
      · subst hm
        rw [natDigitsRev_succ n hn] at h
        have : natDigitsRev 0 = [] := rfl
        rw [this] at h
        exact absurd h (List.noConfusion)
      · rw [natDigitsRev_succ n hn, natDigitsRev_succ m hm] at h
        have hmod : n % 10 = m % 10 := by
          have := congrArg (fun l => List.headD l 0) h
          simpa using this
        have htail : natDigitsRev (n / 10) = natDigitsRev (m / 10) := by
          have := congrArg List.tail h
          simpa using this
        have hdiv : n / 10 = m / 10 :=
          ih (n / 10) (Nat.div_lt_self (Nat.pos_of_ne_zero hn) (by norm_num)) (m / 10) htail
        omega

/-- Digit characters are injective below ten. -/
theorem decDigitChar_inj : ∀ d < 10, ∀ e < 10, decDigitChar d = decDigitChar e → d = e := by
  decide

/-- Digit-character images are injective on digit lists. -/
theorem map_decDigitChar_inj (l : List ℕ) : ∀ (l' : List ℕ), (∀ d ∈ l, d < 10) →
    (∀ d ∈ l', d < 10) → l.map decDigitChar = l'.map decDigitChar → l = l' := by
  induction l with
  | nil =>
    intro l' _ _ h
    cases l' with
    | nil => rfl
    | cons x xs => exact absurd h (List.noConfusion)
  | cons x xs ih =>
    intro l' hl hl' h
    cases l' with
    | nil => exact absurd h (List.noConfusion)
    | cons y ys =>
      simp only [List.map] at h
      have hx := List.head_eq_of_cons_eq h
      have hxs := List.tail_eq_of_cons_eq h
      have hxy : x = y :=
        decDigitChar_inj x (hl x (List.mem_cons_self x xs)) y (hl' y (List.mem_cons_self y ys)) hx
      rw [hxy, ih ys (fun d hd => hl d (List.mem_cons_of_mem x hd))
        (fun d hd => hl' d (List.mem_cons_of_mem y hd)) hxs]

/-- The decimal string of a natural number determines it. -/
theorem natToString_inj (n m : ℕ) (h : natToString n = natToString m) : n = m := by
  unfold natToString at h
  by_cases hn : n = 0 <;> by_cases hm : m = 0
  · omega
  · exfalso
    rw [if_pos hn, if_neg hm] at h
    have hdata := congrArg String.data h
    have : ['0'] = ((natDigitsRev m).reverse).map decDigitChar := hdata
    have hrev : (natDigitsRev m).reverse.map decDigitChar = ['0'] := this.symm
    cases hrevL : (natDigitsRev m).reverse with
    | nil =>
      have : natDigitsRev m = [] := by
        have := congrArg List.reverse hrevL
        simpa using this
      rw [natDigitsRev_eq_nil_iff] at this
      exact hm this
    | cons d ds =>
      rw [hrevL] at hrev
      simp only [List.map] at hrev
      have hd0 : decDigitChar d = '0' := List.head_eq_of_cons_eq hrev
      have hds : ds.map decDigitChar = [] := List.tail_eq_of_cons_eq hrev
      have hdsnil : ds = [] := List.map_eq_nil_iff.1 hds
      have hdmem : d ∈ natDigitsRev m := by
        have : d ∈ (natDigitsRev m).reverse := by
          rw [hrevL, hdsnil]
          exact List.mem_cons_self d []
        exact List.mem_reverse.1 this
      have hd : d = 0 :=
        decDigitChar_inj d (natDigitsRev_lt_ten m d hdmem) 0 (by norm_num) hd0
      have hdig : natDigitsRev m = [0] := by
        have := congrArg List.reverse hrevL
        rw [List.reverse_reverse] at this
        rw [this, hdsnil, hd]
        rfl
      have : natDigitsRev m = natDigitsRev 0 → m = 0 := fun hh => natDigitsRev_inj m 0 hh
      rw [natDigitsRev_succ m hm] at hdig
      have hmod : m % 10 = 0 := List.head_eq_of_cons_eq hdig
      have htail : natDigitsRev (m / 10) = [] := List.tail_eq_of_cons_eq hdig
      rw [natDigitsRev_eq_nil_iff] at htail
      omega
  · exfalso
    rw [if_neg hn, if_pos hm] at h
    have hdata := congrArg String.data h.symm
    have hrev : (natDigitsRev n).reverse.map decDigitChar = ['0'] := hdata.symm
    cases hrevL : (natDigitsRev n).reverse with
    | nil =>
      have : natDigitsRev n = [] := by
        have := congrArg List.reverse hrevL
        simpa using this
      rw [natDigitsRev_eq_nil_iff] at this
      exact hn this
    | cons d ds =>
      rw [hrevL] at hrev
      simp only [List.map] at hrev
      have hd0 : decDigitChar d = '0' := List.head_eq_of_cons_eq hrev
      have hds : ds.map decDigitChar = [] := List.tail_eq_of_cons_eq hrev
      have hdsnil : ds = [] := List.map_eq_nil_iff.1 hds
      have hdmem : d ∈ natDigitsRev n := by
        have : d ∈ (natDigitsRev n).reverse := by
          rw [hrevL, hdsnil]
          exact List.mem_cons_self d []
        exact List.mem_reverse.1 this
      have hd : d = 0 :=
        decDigitChar_inj d (natDigitsRev_lt_ten n d hdmem) 0 (by norm_num) hd0
      have hdig : natDigitsRev n = [0] := by
        have := congrArg List.reverse hrevL
        rw [List.reverse_reverse] at this
        rw [this, hdsnil, hd]
        rfl
      rw [natDigitsRev_succ n hn] at hdig
      have htail : natDigitsRev (n / 10) = [] := List.tail_eq_of_cons_eq hdig
      have hmod : n % 10 = 0 := List.head_eq_of_cons_eq hdig
      rw [natDigitsRev_eq_nil_iff] at htail
      omega
  · rw [if_neg hn, if_neg hm] at h
    have hdata := congrArg String.data h
    have hmap : (natDigitsRev n).reverse.map decDigitChar =
        (natDigitsRev m).reverse.map decDigitChar := hdata
    have hrev : (natDigitsRev n).reverse = (natDigitsRev m).reverse :=
      map_decDigitChar_inj _ _
        (fun d hd => natDigitsRev_lt_ten n d (List.mem_reverse.1 hd))
        (fun d hd => natDigitsRev_lt_ten m d (List.mem_reverse.1 hd)) hmap
    exact natDigitsRev_inj n m (List.reverse_injective hrev)

/-- The synthesized placeholder ids are pairwise distinct. -/
theorem receiptPlaceholder_inj (i j : ℕ)
    (h : "receipt-" ++ natToString i = "receipt-" ++ natToString j) : i = j := by
  apply natToString_inj
  have hdata := congrArg String.data h
  rw [String.data_append, String.data_append] at hdata
  have hcancel := List.append_cancel_left hdata
  exact congrArg String.mk hcancel

/-- The synthesized placeholder ids are never empty. -/
theorem receiptPlaceholder_ne_empty (i : ℕ) : "receipt-" ++ natToString i ≠ "" := by
  intro h
  have hdata := congrArg String.data h
  rw [String.data_append] at hdata
  simp at hdata

/-- Does a raw entry carry no usable explicit id (so that the normalizer
synthesizes the placeholder)? True for non-objects too (they are dropped
anyway). -/
def jsonSynthesizedIdOnly : Json → Bool
  | Json.obj fs =>
    match jsCoalesce fs ["receiptId", "id", "_id"] with
    | some (Json.str _) => false
    | some (Json.num _) => false
    | _ => true
  | _ => true

/-- With no usable explicit id the resolved id is the placeholder. -/
theorem receiptIdOf_synthesized (n : ℕ) (fs : List (String × Json))
    (h : jsonSynthesizedIdOnly (Json.obj fs) = true) :
    receiptIdOf n fs = "receipt-" ++ natToString n := by
  unfold receiptIdOf
  rcases hc : jsCoalesce fs ["receiptId", "id", "_id"] with _ | v
  · rfl
  · cases v with
    | null => rfl
    | bool b => rfl
    | num nn => exact absurd h (by simp [jsonSynthesizedIdOnly, hc])
    | str s => exact absurd h (by simp [jsonSynthesizedIdOnly, hc])
    | arr xs => rfl
    | obj os => rfl

/-- Every record coerced from an id-less collection slice carries a
placeholder id with index at least the slice offset. -/
theorem coerced_ids_synthesized (items : List Json) : ∀ (n : ℕ),
    (∀ e ∈ items, jsonSynthesizedIdOnly e = true) →
    ∀ r ∈ (List.enumFrom n items).filterMap (fun p => coerceReceipt p.1 p.2),
      ∃ i, n ≤ i ∧ r.id = "receipt-" ++ natToString i := by
  induction items with
  | nil =>
    intro n _ r hr
    exact absurd hr (List.not_mem_nil r)
  | cons e rest ih =>
    intro n h r hr
    have hcons : List.enumFrom n (e :: rest) = (n, e) :: List.enumFrom (n + 1) rest := rfl
    rw [hcons, List.filterMap_cons] at hr
    cases hco : coerceReceipt n e with
    | none =>
      rw [hco] at hr
      obtain ⟨i, hni, hid⟩ :=
        ih (n + 1) (fun x hx => h x (List.mem_cons_of_mem e hx)) r hr
      exact ⟨i, by omega, hid⟩
    | some r0 =>
      rw [hco] at hr
      rcases List.mem_cons.1 hr with rfl | hr'
      · cases e with
        | obj fs =>
          have hrec := Option.some.inj hco
          refine ⟨n, le_refl n, ?_⟩
          rw [← hrec]
          exact receiptIdOf_synthesized n fs (h (Json.obj fs) (List.mem_cons_self _ rest))
        | null => exact absurd hco (by simp [coerceReceipt, toObjectFields])
        | bool b => exact absurd hco (by simp [coerceReceipt, toObjectFields])
        | num nn => exact absurd hco (by simp [coerceReceipt, toObjectFields])
        | str s => exact absurd hco (by simp [coerceReceipt, toObjectFields])
        | arr xs => exact absurd hco (by simp [coerceReceipt, toObjectFields])
      · obtain ⟨i, hni, hid⟩ :=
          ih (n + 1) (fun x hx => h x (List.mem_cons_of_mem e hx)) r hr'
        exact ⟨i, by omega, hid⟩

/-- The records coerced from an id-less collection have pairwise distinct
ids. -/
theorem coerced_ids_pairwise (items : List Json) : ∀ (n : ℕ),
    (∀ e ∈ items, jsonSynthesizedIdOnly e = true) →
    List.Pairwise (fun a b : Receipt => a.id ≠ b.id)
      ((List.enumFrom n items).filterMap (fun p => coerceReceipt p.1 p.2)) := by
  induction items with
  | nil =>
    intro n _
    exact List.Pairwise.nil
  | cons e rest ih =>
    intro n h
    have hcons : List.enumFrom n (e :: rest) = (n, e) :: List.enumFrom (n + 1) rest := rfl
    rw [hcons, List.filterMap_cons]
    cases hco : coerceReceipt n e with
    | none => exact ih (n + 1) (fun x hx => h x (List.mem_cons_of_mem e hx))
    | some r0 =>
      refine List.Pairwise.cons ?_ (ih (n + 1) (fun x hx => h x (List.mem_cons_of_mem e hx)))
      intro s hs hideq
      obtain ⟨i, hni, hid⟩ :=
        coerced_ids_synthesized rest (n + 1) (fun x hx => h x (List.mem_cons_of_mem e hx)) s hs
      have hr0 : r0.id = "receipt-" ++ natToString n := by
        cases e with
        | obj fs =>
          have hrec := Option.some.inj hco
          rw [← hrec]
          exact receiptIdOf_synthesized n fs (h (Json.obj fs) (List.mem_cons_self _ rest))
        | null => exact absurd hco (by simp [coerceReceipt, toObjectFields])
        | bool b => exact absurd hco (by simp [coerceReceipt, toObjectFields])
        | num nn => exact absurd hco (by simp [coerceReceipt, toObjectFields])
        | str s' => exact absurd hco (by simp [coerceReceipt, toObjectFields])
        | arr xs => exact absurd hco (by simp [coerceReceipt, toObjectFields])
      rw [hr0, hid] at hideq
      have := receiptPlaceholder_inj n i hideq
      omega

/-- C2 amended: when no entry of the payload carries a usable explicit id
(receiptId, id or _id of string or number type), every normalized record
gets a synthesized placeholder id, the ids are non-empty, and they are
pairwise distinct. In general the invariant fails: backend-supplied empty
or duplicate id values pass through verbatim. -/
theorem normalizeReceipts_synthesized_ids_unique (tz : ℤ) (payload : Json)
    (h : ∀ e ∈ extractReceiptsRaw payload, jsonSynthesizedIdOnly e = true) :
    ((normalizeReceipts tz payload).map Receipt.id).Nodup ∧
      ∀ r ∈ normalizeReceipts tz payload, r.id ≠ "" := by
  have hperm : List.Perm (normalizeReceipts tz payload)
      (((extractReceiptsRaw payload).enum).filterMap (fun p => coerceReceipt p.1 p.2)) :=
    List.perm_insertionSort _ _
  have henum : (extractReceiptsRaw payload).enum =
      List.enumFrom 0 (extractReceiptsRaw payload) := rfl
  have hpairwise : List.Pairwise (fun a b : Receipt => a.id ≠ b.id)
      (((extractReceiptsRaw payload).enum).filterMap (fun p => coerceReceipt p.1 p.2)) := by
    rw [henum]
    exact coerced_ids_pairwise (extractReceiptsRaw payload) 0 h
  constructor
  · have hnodup : (((extractReceiptsRaw payload).enum).filterMap
        (fun p => coerceReceipt p.1 p.2)).map Receipt.id |>.Nodup := by
      unfold List.Nodup
      rw [List.pairwise_map]
      exact hpairwise
    exact ((hperm.map Receipt.id).nodup_iff).2 hnodup
  · intro r hr
    have hr' : r ∈ ((extractReceiptsRaw payload).enum).filterMap
        (fun p => coerceReceipt p.1 p.2) := hperm.subset hr
    obtain ⟨i, _, hid⟩ := by
      rw [henum] at hr'
      exact coerced_ids_synthesized (extractReceiptsRaw payload) 0 h r hr'
    rw [hid]
    exact receiptPlaceholder_ne_empty i

/-- C2 witness: the amended uniqueness theorem applied to a payload of
two id-less entries. -/
theorem normalizeReceipts_synthesized_ids_unique_witness :
    ((normalizeReceipts 0 (Json.arr [Json.obj [("merchant", Json.str "A")], Json.obj []])).map
        Receipt.id).Nodup ∧
      ∀ r ∈ normalizeReceipts 0 (Json.arr [Json.obj [("merchant", Json.str "A")], Json.obj []]),
        r.id ≠ "" :=
  normalizeReceipts_synthesized_ids_unique 0
    (Json.arr [Json.obj [("merchant", Json.str "A")], Json.obj []]) (by decide)

/-- C2 counterexample: a payload with an explicitly empty receiptId and
two entries sharing the id x normalizes into records with an empty id
and duplicate ids. -/
theorem normalizeReceipts_id_invariant_fails :
    (normalizeReceipts 0 (Json.arr
        [Json.obj [("receiptId", Json.str "")],
          Json.obj [("id", Json.str "x")],
          Json.obj [("id", Json.str "x")]])).map Receipt.id = ["", "x", "x"] ∧
      (∃ r ∈ normalizeReceipts 0 (Json.arr
        [Json.obj [("receiptId", Json.str "")],
          Json.obj [("id", Json.str "x")],
          Json.obj [("id", Json.str "x")]]), r.id = "") ∧
      ¬ ((normalizeReceipts 0 (Json.arr
        [Json.obj [("receiptId", Json.str "")],
          Json.obj [("id", Json.str "x")],
          Json.obj [("id", Json.str "x")]])).map Receipt.id).Nodup :=
  ⟨by decide, by decide, by decide⟩

/-- C8: the dirty check compares numeric fields as parsed numbers, so a
clean edit state stays clean when the subtotal input changes from 12 to
12.00; changing any line-item description to a different trimmed string
makes it dirty; and a save with no detected change short-circuits with
zero network requests and the no-changes message. -/
theorem receiptDirtyCheck_numeric_and_shortcircuit (tz : ℤ) :
    (∀ (detail : ReceiptDetail) (edit : EditableReceipt),
        isReceiptEdited tz detail edit = false →
        detail.subtotal = some (JsRat.ofInt 12) →
        isReceiptEdited tz detail { edit with subtotal := "12.00" } = false) ∧
      (∀ (detail : ReceiptDetail) (edit : EditableReceipt) (i : ℕ)
          (hi : i < detail.items.length) (hi' : i < edit.items.length),
          (detail.items.get ⟨i, hi⟩).description ≠
            jsTrim ((edit.items.get ⟨i, hi'⟩).description) →
          isReceiptEdited tz detail edit = true) ∧
      (∀ (st : ReceiptPageState) (detail : ReceiptDetail) (edit : EditableReceipt),
          st.detail = some detail → st.editDetail = some edit →
          isReceiptEdited tz detail edit = false →
          (handleSaveReceiptStep tz st).2 = [] ∧
            (¬ (detail.receiptId = none ∨ detail.receiptId = some (JsRat.ofInt 0) ∨
                st.saveStatus = SaveStatus.saving) →
              (handleSaveReceiptStep tz st).1.saveMessage = "No changes to save.")) := by
  refine ⟨?_, ?_, ?_⟩
  · intro detail edit hclean hsub
    simp only [isReceiptEdited, Bool.or_eq_false_iff, decide_eq_false_iff_not, not_not] at hclean ⊢
    obtain ⟨⟨⟨⟨⟨⟨⟨hm, hdt⟩, hc⟩, _⟩, htax⟩, htot⟩, hlen⟩, hany⟩ := hclean
    refine ⟨⟨⟨⟨⟨⟨⟨hm, hdt⟩, hc⟩, ?_⟩, htax⟩, htot⟩, hlen⟩, hany⟩
    rw [hsub]
    decide
  · intro detail edit i hi hi' hdesc
    simp only [isReceiptEdited, Bool.or_eq_true]
    right
    rw [List.any_eq_true]
    have hizip : i < (detail.items.zip edit.items).length := by
      rw [List.length_zip]
      omega
    refine ⟨(detail.items.zip edit.items).get ⟨i, hizip⟩, List.get_mem _ _ _, ?_⟩
    have hzip : (detail.items.zip edit.items).get ⟨i, hizip⟩ =
        (detail.items.get ⟨i, hi⟩, edit.items.get ⟨i, hi'⟩) := by
      simp [List.get_eq_getElem, List.getElem_zip]
    rw [hzip]
    simp only [Bool.or_eq_true, decide_eq_true_eq]
    exact Or.inl (Or.inl (Or.inl hdesc))
  · intro st detail edit hd he hnd
    constructor
    · simp only [handleSaveReceiptStep, hd, he, hnd]
      split
      · rfl
      · rfl
    · intro hguard
      simp only [handleSaveReceiptStep, hd, he]
      rw [if_neg hguard, if_pos hnd]

/-- C8 witness: the dirty-check theorem applied at a concrete snapshot. -/
theorem receiptDirtyCheck_witness :
    isReceiptEdited 0
        ⟨some ⟨1, 1⟩, "A", "", "", none, "", none, some ⟨12, 1⟩, some ⟨1, 1⟩, some ⟨13, 1⟩,
          [⟨"Item", some ⟨1, 1⟩, some ⟨2, 1⟩, some ⟨2, 1⟩⟩]⟩
        { buildEditableReceipt 0 0
            ⟨some ⟨1, 1⟩, "A", "", "", none, "", none, some ⟨12, 1⟩, some ⟨1, 1⟩, some ⟨13, 1⟩,
              [⟨"Item", some ⟨1, 1⟩, some ⟨2, 1⟩, some ⟨2, 1⟩⟩]⟩ with
          subtotal := "12.00" } = false ∧
      isReceiptEdited 0
        ⟨some ⟨1, 1⟩, "A", "", "", none, "", none, some ⟨12, 1⟩, some ⟨1, 1⟩, some ⟨13, 1⟩,
          [⟨"Item", some ⟨1, 1⟩, some ⟨2, 1⟩, some ⟨2, 1⟩⟩]⟩
        { buildEditableReceipt 0 0
            ⟨some ⟨1, 1⟩, "A", "", "", none, "", none, some ⟨12, 1⟩, some ⟨1, 1⟩, some ⟨13, 1⟩,
              [⟨"Item", some ⟨1, 1⟩, some ⟨2, 1⟩, some ⟨2, 1⟩⟩]⟩ with
          items := [⟨"Item-0-0", "Other", "1", "2", "2"⟩] } = true ∧
      (handleSaveReceiptStep 0
          ⟨some ⟨some ⟨1, 1⟩, "A", "", "", none, "", none, some ⟨12, 1⟩, some ⟨1, 1⟩,
              some ⟨13, 1⟩, [⟨"Item", some ⟨1, 1⟩, some ⟨2, 1⟩, some ⟨2, 1⟩⟩]⟩,
            some (buildEditableReceipt 0 0
              ⟨some ⟨1, 1⟩, "A", "", "", none, "", none, some ⟨12, 1⟩, some ⟨1, 1⟩,
                some ⟨13, 1⟩, [⟨"Item", some ⟨1, 1⟩, some ⟨2, 1⟩, some ⟨2, 1⟩⟩]⟩),
            SaveStatus.idle, ""⟩).2 = [] ∧
      (handleSaveReceiptStep 0
          ⟨some ⟨some ⟨1, 1⟩, "A", "", "", none, "", none, some ⟨12, 1⟩, some ⟨1, 1⟩,
              some ⟨13, 1⟩, [⟨"Item", some ⟨1, 1⟩, some ⟨2, 1⟩, some ⟨2, 1⟩⟩]⟩,
            some (buildEditableReceipt 0 0
              ⟨some ⟨1, 1⟩, "A", "", "", none, "", none, some ⟨12, 1⟩, some ⟨1, 1⟩,
                some ⟨13, 1⟩, [⟨"Item", some ⟨1, 1⟩, some ⟨2, 1⟩, some ⟨2, 1⟩⟩]⟩),
            SaveStatus.idle, ""⟩).1.saveMessage = "No changes to save." := by
  refine ⟨?_, ?_, ?_, ?_⟩
  · exact (receiptDirtyCheck_numeric_and_shortcircuit 0).1 _ _ (by decide) (by decide)
  · exact (receiptDirtyCheck_numeric_and_shortcircuit 0).2.1 _ _ 0 (by decide) (by decide)
      (by decide)
  · exact ((receiptDirtyCheck_numeric_and_shortcircuit 0).2.2 _ _ _ rfl rfl (by decide)).1
  · exact ((receiptDirtyCheck_numeric_and_shortcircuit 0).2.2 _ _ _ rfl rfl (by decide)).2
      (by decide)

/-- Reading an unquoted safe field up to the next comma. -/
theorem csvReadAux_plain_safe_comma (cs : List Char) : ∀ (acc rest : List Char),
    cs.contains ',' = false → cs.contains '"' = false →
    csvReadAux CsvMode.plain acc (cs ++ ',' :: rest) =
      String.mk (acc.reverse ++ cs) :: csvReadAux CsvMode.plain [] rest := by
  induction cs with
  | nil =>
    intro acc rest _ _
    show csvReadAux CsvMode.plain acc (',' :: rest) = _
    simp [csvReadAux]
  | cons c cs' ih =>
    intro acc rest hc hq
    simp only [List.contains_cons, Bool.or_eq_false_iff, beq_eq_false_iff_ne] at hc hq
    show csvReadAux CsvMode.plain acc (c :: (cs' ++ ',' :: rest)) = _
    simp only [csvReadAux]
    rw [if_neg (Ne.symm hc.1), if_neg (fun hand => hq.1 hand.1.symm)]
    rw [ih (c :: acc) rest hc.2 hq.2]
    simp [List.append_assoc]

/-- Reading an unquoted safe field at the end of the record. -/
theorem csvReadAux_plain_safe_end (cs : List Char) : ∀ (acc : List Char),
    cs.contains ',' = false → cs.contains '"' = false →
    csvReadAux CsvMode.plain acc cs = [String.mk (acc.reverse ++ cs)] := by
  induction cs with
  | nil =>
    intro acc _ _
    simp [csvReadAux]
  | cons c cs' ih =>
    intro acc hc hq
    simp only [List.contains_cons, Bool.or_eq_false_iff, beq_eq_false_iff_ne] at hc hq
    simp only [csvReadAux]
    rw [if_neg (Ne.symm hc.1), if_neg (fun hand => hq.1 hand.1.symm)]
    rw [ih (c :: acc) hc.2 hq.2]
    simp [List.append_assoc]

/-- Unfolding equation of the reader in quoted mode on a cons. -/
theorem csvReadAux_quoted_cons (acc : List Char) (c : Char) (rest : List Char) :
    csvReadAux CsvMode.quoted acc (c :: rest) =
      if c = '"' then
        (match rest with
          | [] => [String.mk acc.reverse]
          | c' :: rest' =>
            if c' = '"' then csvReadAux CsvMode.quoted ('"' :: acc) rest'
            else if c' = ',' then String.mk acc.reverse :: csvReadAux CsvMode.plain [] rest'
            else csvReadAux CsvMode.post acc rest')
      else csvReadAux CsvMode.quoted (c :: acc) rest := by
  rw [csvReadAux.eq_def]

/-- Reading a quoted field body up to the closing quote and a comma. -/
theorem csvReadAux_quoted_comma (cs : List Char) : ∀ (acc rest : List Char),
    csvReadAux CsvMode.quoted acc (dupQuoteChars cs ++ '"' :: ',' :: rest) =
      String.mk (acc.reverse ++ cs) :: csvReadAux CsvMode.plain [] rest := by
  induction cs with
  | nil =>
    intro acc rest
    show csvReadAux CsvMode.quoted acc ('"' :: ',' :: rest) = _
    rw [csvReadAux_quoted_cons, if_pos rfl]
    simp
  | cons c cs' ih =>
    intro acc rest
    by_cases hc : c = '"'
    · subst hc
      show csvReadAux CsvMode.quoted acc
        ('"' :: '"' :: (dupQuoteChars cs' ++ '"' :: ',' :: rest)) = _
      rw [csvReadAux_quoted_cons, if_pos rfl]
      show csvReadAux CsvMode.quoted ('"' :: acc) (dupQuoteChars cs' ++ '"' :: ',' :: rest) = _
      rw [ih ('"' :: acc) rest]
      simp [List.append_assoc]
    · have hdup : dupQuoteChars (c :: cs') = c :: dupQuoteChars cs' := by
        show (if c = '"' then '"' :: '"' :: dupQuoteChars cs' else c :: dupQuoteChars cs') = _
        rw [if_neg hc]
      rw [hdup]
      show csvReadAux CsvMode.quoted acc (c :: (dupQuoteChars cs' ++ '"' :: ',' :: rest)) = _
      rw [csvReadAux_quoted_cons, if_neg hc, ih (c :: acc) rest]
      simp [List.append_assoc]

/-- Reading a quoted field body up to the closing quote at the end of the
record. -/
theorem csvReadAux_quoted_end (cs : List Char) : ∀ (acc : List Char),
    csvReadAux CsvMode.quoted acc (dupQuoteChars cs ++ ['"']) =
      [String.mk (acc.reverse ++ cs)] := by
  induction cs with
  | nil =>
    intro acc
    show csvReadAux CsvMode.quoted acc ['"'] = _
    rw [csvReadAux_quoted_cons, if_pos rfl]
    simp
  | cons c cs' ih =>
    intro acc
    by_cases hc : c = '"'
    · subst hc
      show csvReadAux CsvMode.quoted acc ('"' :: '"' :: (dupQuoteChars cs' ++ ['"'])) = _
      rw [csvReadAux_quoted_cons, if_pos rfl]
      show csvReadAux CsvMode.quoted ('"' :: acc) (dupQuoteChars cs' ++ ['"']) = _
      rw [ih ('"' :: acc)]
      simp [List.append_assoc]
    · have hdup : dupQuoteChars (c :: cs') = c :: dupQuoteChars cs' := by
        show (if c = '"' then '"' :: '"' :: dupQuoteChars cs' else c :: dupQuoteChars cs') = _
        rw [if_neg hc]
      rw [hdup]
      show csvReadAux CsvMode.quoted acc (c :: (dupQuoteChars cs' ++ ['"'])) = _
      rw [csvReadAux_quoted_cons, if_neg hc, ih (c :: acc)]
      simp [List.append_assoc]

/-- Reading one escaped field followed by a comma recovers the field. -/
theorem csvField_read_comma (f : String) (rest : List Char) :
    csvReadAux CsvMode.plain [] ((escapeCsvValue (CsvValue.strV f)).data ++ ',' :: rest) =
      f :: csvReadAux CsvMode.plain [] rest := by
  have hesc : escapeCsvValue (CsvValue.strV f) =
      if csvNeedsQuoting f then "\"" ++ dupQuotes f ++ "\"" else f := rfl
  by_cases hq : csvNeedsQuoting f = true
  · rw [hesc, if_pos hq]
    have hdata : ("\"" ++ dupQuotes f ++ "\"").data ++ ',' :: rest =
        '"' :: (dupQuoteChars f.data ++ '"' :: ',' :: rest) := by
      simp [String.data_append, dupQuotes, List.append_assoc]
    rw [hdata]
    show csvReadAux CsvMode.quoted [] (dupQuoteChars f.data ++ '"' :: ',' :: rest) = _
    rw [csvReadAux_quoted_comma f.data [] rest]
    rfl
  · rw [hesc, if_neg hq]
    have hqf : csvNeedsQuoting f = false := by simpa using hq
    simp only [csvNeedsQuoting, jsIncludes, Bool.or_eq_false_iff] at hqf
    rw [csvReadAux_plain_safe_comma f.data [] rest hqf.1.1 hqf.1.2]
    rfl

/-- Reading one escaped field at the end of the record recovers it. -/
theorem csvField_read_end (f : String) :
    csvReadAux CsvMode.plain [] ((escapeCsvValue (CsvValue.strV f)).data) = [f] := by
  have hesc : escapeCsvValue (CsvValue.strV f) =
      if csvNeedsQuoting f then "\"" ++ dupQuotes f ++ "\"" else f := rfl
  by_cases hq : csvNeedsQuoting f = true
  · rw [hesc, if_pos hq]
    have hdata : ("\"" ++ dupQuotes f ++ "\"").data =
        '"' :: (dupQuoteChars f.data ++ ['"']) := by
      simp [String.data_append, dupQuotes]
    rw [hdata]
    show csvReadAux CsvMode.quoted [] (dupQuoteChars f.data ++ ['"']) = _
    rw [csvReadAux_quoted_end f.data []]
    rfl
  · rw [hesc, if_neg hq]
    have hqf : csvNeedsQuoting f = false := by simpa using hq
    simp only [csvNeedsQuoting, jsIncludes, Bool.or_eq_false_iff] at hqf
    rw [csvReadAux_plain_safe_end f.data [] hqf.1.1 hqf.1.2]
    rfl

/-- RFC-4180 round trip: reading a record built by escaping and joining
any non-empty field list recovers exactly the original fields. -/
theorem csvRecord_roundtrip (fields : List String) (h : fields ≠ []) :
    csvReadRecord
        (joinWith "," (fields.map (fun f => escapeCsvValue (CsvValue.strV f)))) = fields := by
  induction fields with
  | nil => exact absurd rfl h
  | cons f rest ih =>
    cases rest with
    | nil => exact csvField_read_end f
    | cons g rest' =>
      have hjoin : joinWith ","
          ((f :: g :: rest').map (fun x => escapeCsvValue (CsvValue.strV x))) =
          escapeCsvValue (CsvValue.strV f) ++ "," ++
            joinWith "," ((g :: rest').map (fun x => escapeCsvValue (CsvValue.strV x))) := rfl
      unfold csvReadRecord
      rw [hjoin]
      have hdata : (escapeCsvValue (CsvValue.strV f) ++ "," ++
          joinWith "," ((g :: rest').map (fun x => escapeCsvValue (CsvValue.strV x)))).data =
          (escapeCsvValue (CsvValue.strV f)).data ++ ',' ::
            (joinWith "," ((g :: rest').map (fun x => escapeCsvValue (CsvValue.strV x)))).data := by
        simp [String.data_append, List.append_assoc]
      rw [hdata, csvField_read_comma]
      have := ih (by simp)
      unfold csvReadRecord at this
      rw [this]

/-- Appending the empty string on the right is the identity. -/
theorem stringAppendEmpty (s : String) : s ++ "" = s := by
  have h : (s ++ "").data = s.data := by simp [String.data_append]
  exact congrArg String.mk h

/-- String concatenation is associative. -/
theorem stringAppendAssoc (a b c : String) : a ++ b ++ c = a ++ (b ++ c) := by
  have h : (a ++ b ++ c).data = (a ++ (b ++ c)).data := by
    simp [String.data_append, List.append_assoc]
  exact congrArg String.mk h

/-- C7: the CSV export of the transactions page quotes RFC-4180 style, so
every exported row reads back to exactly the original field strings with
the reference CSV reader; the content starts with the UTF-8 BOM followed
by the header row id,merchant,amount,date; and the file is named
transactions-YYYY-MM-DD.csv from the current local date. -/
theorem handleExport_csv_roundtrip (txs : List Transaction) (selected : List String)
    (tz nowMs : ℤ) (hsel : selected ≠ []) :
    ∃ out, handleExportStep txs selected tz nowMs = some out ∧
      out.fileName = "transactions-" ++
          (intToString (jsGetFullYear tz nowMs) ++ "-" ++
            padZeros 2 (intToString (jsGetMonth tz nowMs + 1)) ++ "-" ++
            padZeros 2 (intToString (jsGetDate tz nowMs))) ++ ".csv" ∧
      (∃ rest : String, out.content = "\uFEFF" ++ ("id,merchant,amount,date" ++ rest)) ∧
      ∀ t ∈ txs.filter (fun t => selected.contains t.id),
        csvReadRecord (transactionCsvRow t) =
          [t.id, t.merchant,
            (match t.amount with
              | some q => jsNumToString (JsNum.finite q)
              | none => ""),
            (match t.date with
              | some s => s
              | none => "")] := by
  have hne : ¬ (selected.length = 0) := fun h => hsel (List.length_eq_zero.1 h)
  unfold handleExportStep
  rw [if_neg hne]
  refine ⟨_, rfl, rfl, ?_, ?_⟩
  · cases hrows : (txs.filter (fun t => selected.contains t.id)).map transactionCsvRow with
    | nil =>
      refine ⟨"", ?_⟩
      show "\uFEFF" ++ joinWith "\n" ["id,merchant,amount,date"] = _
      rw [show joinWith "\n" ["id,merchant,amount,date"] = "id,merchant,amount,date" from rfl,
        stringAppendEmpty "id,merchant,amount,date"]
    | cons r rs =>
      refine ⟨"\n" ++ joinWith "\n" (r :: rs), ?_⟩
      show "\uFEFF" ++ joinWith "\n" ("id,merchant,amount,date" :: r :: rs) = _
      rw [show joinWith "\n" ("id,merchant,amount,date" :: r :: rs) =
          "id,merchant,amount,date" ++ "\n" ++ joinWith "\n" (r :: rs) from rfl,
        stringAppendAssoc]
  · intro t _
    have hrow : transactionCsvRow t =
        joinWith ","
          ([t.id, t.merchant,
            (match t.amount with
              | some q => jsNumToString (JsNum.finite q)
              | none => ""),
            (match t.date with
              | some s => s
              | none => "")].map (fun f => escapeCsvValue (CsvValue.strV f))) := by
      obtain ⟨tid, tmerch, tam, tdate⟩ := t
      cases tam <;> cases tdate <;> rfl
    rw [hrow, csvRecord_roundtrip _ (by simp)]

/-- C7 witness: the export theorem applied to a selection containing a
merchant name with a comma and a quote, plus a concrete round trip of
that row. -/
theorem handleExport_csv_roundtrip_witness :
    csvReadRecord (transactionCsvRow ⟨"1", "Acme, \"Inc\"", some ⟨25, 2⟩, some "2024-03-01"⟩) =
        ["1", "Acme, \"Inc\"", "12.5", "2024-03-01"] ∧
      (∃ out, handleExportStep
          [⟨"1", "Acme, \"Inc\"", some ⟨25, 2⟩, some "2024-03-01"⟩, ⟨"2", "Plain", none, none⟩]
          ["1", "2"] 0 1709251200000 = some out ∧
        out.fileName = "transactions-" ++
            (intToString (jsGetFullYear 0 1709251200000) ++ "-" ++
              padZeros 2 (intToString (jsGetMonth 0 1709251200000 + 1)) ++ "-" ++
              padZeros 2 (intToString (jsGetDate 0 1709251200000))) ++ ".csv" ∧
        (∃ rest : String, out.content = "\uFEFF" ++ ("id,merchant,amount,date" ++ rest)) ∧
        ∀ t ∈ List.filter (fun t => (["1", "2"] : List String).contains t.id)
            [(⟨"1", "Acme, \"Inc\"", some ⟨25, 2⟩, some "2024-03-01"⟩ : Transaction),
              ⟨"2", "Plain", none, none⟩],
          csvReadRecord (transactionCsvRow t) =
            [t.id, t.merchant,
              (match t.amount with
                | some q => jsNumToString (JsNum.finite q)
                | none => ""),
              (match t.date with
                | some s => s
                | none => "")]) :=
  ⟨by decide,
    handleExport_csv_roundtrip
      [⟨"1", "Acme, \"Inc\"", some ⟨25, 2⟩, some "2024-03-01"⟩, ⟨"2", "Plain", none, none⟩]
      ["1", "2"] 0 1709251200000 (by decide)⟩
